import Mathlib

/-!
# GTags database manager

A shallow embedding of `src/src/DbManager.cpp` (the registry of GTags
databases with its read/write locks) and of the pieces of the plugin that
drive it.

The registry is a `std::list<GTagsDb>` guarded by one mutex; every public
operation runs with the mutex held, so each operation is modelled as one
atomic state transformer on the list. The disk (which files exist, which
deletions succeed) is an explicit argument of every operation that touches
it, so it may differ from one call to the next.
-/

namespace GTags

/-! ## Paths -/

/-- Modelled from the spec: `CPath` is declared in `Common.h`, which is not
among the sources. A path is the sequence of its components, the root
first: `C:\proj\src\a.c` is `["C:", "proj", "src", "a.c"]` and the directory
`C:\proj\` is `["C:", "proj"]`. -/
structure CPath where
  parts : List String
deriving DecidableEq, Repr

namespace CPath

/-- Modelled from the spec: `CPath::Contains` ("is this file under this
entry's path"): the directory is an ancestor of, or equal to, the other
path. -/
def Contains (dir other : CPath) : Bool :=
  dir.parts.isPrefixOf other.parts

/-- Modelled from the spec: `CPath::Up` steps to the parent directory and
returns the length of what is left, which is `0` when the step to a parent
fails (nothing is left). The first component is the changed path. -/
def Up (p : CPath) : CPath × Nat :=
  (⟨p.parts.dropLast⟩, p.parts.dropLast.length)

/-- Modelled from the spec: `operator+=` with a file name, the file of that
name directly inside the directory. -/
def append (p : CPath) (name : String) : CPath :=
  ⟨p.parts ++ [name]⟩

/-- Modelled from the spec: `CPath::StripFilename` removes the leaf file
name, leaving the directory. -/
def StripFilename (p : CPath) : CPath :=
  ⟨p.parts.dropLast⟩

/-- The ancestor of `p` made of its first `k` components. -/
def ancestor (p : CPath) (k : Nat) : CPath :=
  ⟨p.parts.take k⟩

end CPath

/-! ## The disk -/

/-- The part of the file system the manager looks at: `CPath::FileExists`
and the outcome of the Win32 call `DeleteFile` on a path. -/
structure Disk where
  FileExists : CPath → Bool
  DeleteFile : CPath → Bool

/-! ## Entries -/

/-- Modelled from the spec: the lock state of a `GTagsDb` (declared in
`DbManager.h`, not among the sources): unlocked, read-locked by a positive
number of readers (`readLocked n` stands for `n + 1` readers), or
write-locked. -/
inductive LockState where
  | unlocked
  | readLocked (others : Nat)
  | writeLocked
deriving DecidableEq, Repr

namespace LockState

/-- Number of lock units held on the entry. -/
def count : LockState → Nat
  | unlocked => 0
  | readLocked n => n + 1
  | writeLocked => 1

end LockState

/-- One node of `_dbList`. `addr` is the identity of the node: a `DbHandle`
is the address of the node's `_path` field, and the operations compare
handles with `db == &(dbi->_path)`. -/
structure GTagsDb where
  addr : Nat
  _path : CPath
  lock : LockState
deriving DecidableEq, Repr

namespace GTagsDb

/-- Modelled from the spec: `GTagsDb::IsLocked`. -/
def IsLocked (db : GTagsDb) : Bool :=
  match db.lock with
  | .unlocked => false
  | _ => true

/-- Modelled from the spec: `GTagsDb::Lock(writeEn)`: a write lock is
granted on an unlocked entry only, a read lock on an entry that is not
write-locked. Returns whether the lock was granted, and the entry. -/
def Lock (db : GTagsDb) (writeEn : Bool) : Bool × GTagsDb :=
  match writeEn, db.lock with
  | true, .unlocked => (true, { db with lock := .writeLocked })
  | true, _ => (false, db)
  | false, .unlocked => (true, { db with lock := .readLocked 0 })
  | false, .readLocked n => (true, { db with lock := .readLocked (n + 1) })
  | false, .writeLocked => (false, db)

/-- Modelled from the spec: `GTagsDb::Unlock` gives back one unit of lock. -/
def Unlock (db : GTagsDb) : GTagsDb :=
  match db.lock with
  | .unlocked => db
  | .readLocked 0 => { db with lock := .unlocked }
  | .readLocked (n + 1) => { db with lock := .readLocked n }
  | .writeLocked => { db with lock := .unlocked }

/-- Modelled from the spec: the constructor `GTagsDb(dbPath, writeEn)`: the
new entry is born locked in the requested mode. -/
def new (addr : Nat) (dbPath : CPath) (writeEn : Bool) : GTagsDb :=
  { addr := addr, _path := dbPath,
    lock := if writeEn then .writeLocked else .readLocked 0 }

end GTagsDb

/-- A handle: `NULL` or the address of an entry's `_path`. -/
abbrev DbHandle := Option Nat

/-! ## The manager -/

/-- The registry: the list of entries, and the address the next allocated
list node gets (node addresses are never reused in this model). -/
structure DbManager where
  _dbList : List GTagsDb
  fresh : Nat
deriving DecidableEq, Repr

namespace DbManager

/-- The manager at start-up. -/
def empty : DbManager := { _dbList := [], fresh := 0 }

/-- `DbManager::DbExistsInFolder`. -/
def DbExistsInFolder (disk : Disk) (folder : CPath) : Bool :=
  disk.FileExists (folder.append "GTAGS")

/-- `DbManager::addDb`: push a new locked entry at the back, return its
handle. -/
def addDb (m : DbManager) (dbPath : CPath) (writeEn : Bool) :
    DbHandle × DbManager :=
  (some m.fresh,
   { _dbList := m._dbList ++ [GTagsDb.new m.fresh dbPath writeEn],
     fresh := m.fresh + 1 })

/-- The loop of `DbManager::RegisterDb`: `none` when the loop ends without
a match, else the returned handle and the list. -/
def RegisterDb.scan (dbPath : CPath) (writeEn : Bool) :
    List GTagsDb → Option (DbHandle × List GTagsDb)
  | [] => none
  | dbi :: rest =>
    if dbi._path = dbPath then
      if dbi.IsLocked then some (none, dbi :: rest)
      else some (some dbi.addr, (dbi.Lock writeEn).2 :: rest)
    else
      match RegisterDb.scan dbPath writeEn rest with
      | none => none
      | some (h, l) => some (h, dbi :: l)

/-- `DbManager::RegisterDb`. -/
def RegisterDb (m : DbManager) (dbPath : CPath) (writeEn : Bool) :
    DbHandle × DbManager :=
  match RegisterDb.scan dbPath writeEn m._dbList with
  | some (h, l) => (h, { m with _dbList := l })
  | none => m.addDb dbPath writeEn

/-- `DbManager::lockDb` on the list: the returned handle, the value of
`*success` afterwards, and the list. -/
def lockDb (disk : Disk) (filePath : CPath) (writeEn : Bool) (success : Bool) :
    List GTagsDb → DbHandle × Bool × List GTagsDb
  | [] => (none, success, [])
  | dbi :: rest =>
    if dbi._path.Contains filePath then
      if !DbExistsInFolder disk dbi._path then (none, success, rest)
      else (some dbi.addr, (dbi.Lock writeEn).1, (dbi.Lock writeEn).2 :: rest)
    else
      ((lockDb disk filePath writeEn success rest).1,
       (lockDb disk filePath writeEn success rest).2.1,
       dbi :: (lockDb disk filePath writeEn success rest).2.2)

/-- The loop `while ((len = dbPath.Up())) if (DbExistsInFolder(dbPath)) break;`
of `DbManager::GetDb`, returning `dbPath` and `len` at its exit. The first
argument bounds the number of iterations; `GetDb` passes a bound the loop
never reaches. -/
def GetDb.walk (disk : Disk) : Nat → CPath → CPath × Nat
  | 0, dbPath => (dbPath, 0)
  | fuel + 1, dbPath =>
    if dbPath.Up.2 = 0 then (dbPath.Up.1, 0)
    else if DbExistsInFolder disk dbPath.Up.1 then (dbPath.Up.1, dbPath.Up.2)
    else GetDb.walk disk fuel dbPath.Up.1

/-- `DbManager::GetDb`. The argument `success` is what the pointer refers
to, `none` for a `NULL` pointer; the result is the handle, what the pointer
refers to afterwards, and the manager. -/
def GetDb (m : DbManager) (disk : Disk) (filePath : CPath) (writeEn : Bool)
    (success : Option Bool) : DbHandle × Option Bool × DbManager :=
  match success with
  | none => (none, none, m)
  | some _ =>
    match lockDb disk filePath writeEn false m._dbList with
    | (some a, s, l) => (some a, some s, { m with _dbList := l })
    | (none, s, l) =>
      if (GetDb.walk disk (filePath.parts.length + 1) filePath).2 = 0 then
        (none, some s, { m with _dbList := l })
      else
        ((addDb { m with _dbList := l }
            (GetDb.walk disk (filePath.parts.length + 1) filePath).1 writeEn).1,
         some true,
         (addDb { m with _dbList := l }
            (GetDb.walk disk (filePath.parts.length + 1) filePath).1 writeEn).2)

/-- The loop of `DbManager::PutDb`. -/
def PutDb.scan (a : Nat) : List GTagsDb → Bool × List GTagsDb
  | [] => (false, [])
  | dbi :: rest =>
    if a = dbi.addr then (dbi.Unlock.IsLocked, dbi.Unlock :: rest)
    else ((PutDb.scan a rest).1, dbi :: (PutDb.scan a rest).2)

/-- `DbManager::PutDb`. -/
def PutDb (m : DbManager) (db : DbHandle) : Bool × DbManager :=
  match db with
  | none => (false, m)
  | some a => ((PutDb.scan a m._dbList).1, { m with _dbList := (PutDb.scan a m._dbList).2 })

/-- `DbManager::deleteDb`: the result, and the paths `DeleteFile` was called
on, in call order. -/
def deleteDb (disk : Disk) (dbPath : CPath) : Bool × List CPath :=
  let gtags := dbPath.append "GTAGS"
  let gpath := gtags.StripFilename.append "GPATH"
  let grtags := gpath.StripFilename.append "GRTAGS"
  if disk.DeleteFile gtags then
    if disk.DeleteFile gpath then
      (disk.DeleteFile grtags, [gtags, gpath, grtags])
    else (false, [gtags, gpath])
  else (false, [gtags])

/-- The loop of `DbManager::UnregisterDb`: the value of `ret`, the list, and
the paths `DeleteFile` was called on. -/
def UnregisterDb.scan (disk : Disk) (a : Nat) :
    List GTagsDb → Bool × List GTagsDb × List CPath
  | [] => (false, [], [])
  | dbi :: rest =>
    if a = dbi.addr then
      if !dbi.Unlock.IsLocked then
        ((deleteDb disk dbi.Unlock._path).1, rest, (deleteDb disk dbi.Unlock._path).2)
      else (false, dbi.Unlock :: rest, [])
    else
      ((UnregisterDb.scan disk a rest).1,
       dbi :: (UnregisterDb.scan disk a rest).2.1,
       (UnregisterDb.scan disk a rest).2.2)

/-- `DbManager::UnregisterDb`: the result, the manager, and the paths
`DeleteFile` was called on, in call order. -/
def UnregisterDb (m : DbManager) (disk : Disk) (db : DbHandle) :
    Bool × DbManager × List CPath :=
  match db with
  | none => (false, m, [])
  | some a =>
    ((UnregisterDb.scan disk a m._dbList).1,
     { m with _dbList := (UnregisterDb.scan disk a m._dbList).2.1 },
     (UnregisterDb.scan disk a m._dbList).2.2)

/-- The entry a handle identifies: the first node with that address. -/
def entryOf (m : DbManager) (a : Nat) : Option GTagsDb :=
  m._dbList.find? (fun dbi => decide (a = dbi.addr))

/-- The entry `lockDb` stops at: the first one, in list order, whose
directory contains the file path. -/
def found (m : DbManager) (filePath : CPath) : Option GTagsDb :=
  m._dbList.find? (fun dbi => dbi._path.Contains filePath)

end DbManager

/-! ## Sequences of calls -/

/-- One call of the manager's public interface. -/
inductive Call where
  | RegisterDb (dbPath : CPath) (writeEn : Bool)
  | GetDb (filePath : CPath) (writeEn : Bool)
  | PutDb (db : DbHandle)
  | UnregisterDb (db : DbHandle)

/-- The manager after one call, made while the disk is `disk`. -/
def DbManager.step (m : DbManager) (disk : Disk) : Call → DbManager
  | .RegisterDb dbPath writeEn => (m.RegisterDb dbPath writeEn).2
  | .GetDb filePath writeEn => (m.GetDb disk filePath writeEn (some false)).2.2
  | .PutDb db => (m.PutDb db).2
  | .UnregisterDb db => (m.UnregisterDb disk db).2.1

/-- The manager after a sequence of calls, each with the disk of its time. -/
def DbManager.run : List (Disk × Call) → DbManager → DbManager
  | [], m => m
  | (disk, c) :: rest, m => DbManager.run rest (m.step disk c)

/-- The paths of the registered entries, in list order. -/
def DbManager.paths (m : DbManager) : List CPath :=
  m._dbList.map GTagsDb._path

/-! ## Callers and the handles they hold -/

/-- A handle a caller holds after a successful acquire: the handle, the
anchor directory it was granted on, and the mode. -/
structure Holder where
  db : Nat
  path : CPath
  writeEn : Bool
deriving DecidableEq, Repr

/-- The manager together with the handles that were successfully acquired
and not yet released. -/
structure Client where
  mgr : DbManager
  held : List Holder
deriving DecidableEq, Repr

/-- What a disciplined caller does: acquire with `RegisterDb` or `GetDb`, or
release the `i`-th handle it holds, once, with `PutDb` or `UnregisterDb`. -/
inductive ClientCall where
  | Register (dbPath : CPath) (writeEn : Bool)
  | Get (filePath : CPath) (writeEn : Bool)
  | Put (i : Nat)
  | Unregister (i : Nat)

namespace Client

/-- No handle held, empty registry. -/
def init : Client := { mgr := DbManager.empty, held := [] }

/-- One caller action. `RegisterDb` succeeded when it returned a handle,
`GetDb` when it returned a handle and set `*success`; a release is applied
to a held handle only, which is then no longer held. -/
def step (c : Client) (disk : Disk) : ClientCall → Client
  | .Register dbPath writeEn =>
    match (c.mgr.RegisterDb dbPath writeEn).1 with
    | some a =>
      { mgr := (c.mgr.RegisterDb dbPath writeEn).2,
        held := c.held ++ [{ db := a, path := dbPath, writeEn := writeEn }] }
    | none => { c with mgr := (c.mgr.RegisterDb dbPath writeEn).2 }
  | .Get filePath writeEn =>
    match c.mgr.GetDb disk filePath writeEn (some false) with
    | (some a, some true, m) =>
      match m.entryOf a with
      | some dbi =>
        { mgr := m,
          held := c.held ++ [{ db := a, path := dbi._path, writeEn := writeEn }] }
      | none => { c with mgr := m }
    | (_, _, m) => { c with mgr := m }
  | .Put i =>
    match c.held.get? i with
    | some h => { mgr := (c.mgr.PutDb (some h.db)).2, held := c.held.eraseIdx i }
    | none => c
  | .Unregister i =>
    match c.held.get? i with
    | some h =>
      { mgr := (c.mgr.UnregisterDb disk (some h.db)).2.1, held := c.held.eraseIdx i }
    | none => c

/-- A sequence of caller actions. -/
def run : List (Disk × ClientCall) → Client → Client
  | [], c => c
  | (disk, a) :: rest, c => run rest (c.step disk a)

/-- Read/write exclusion among the held handles: two held handles on the
same anchor directory are both read handles. -/
def Exclusive (held : List Holder) : Prop :=
  held.Pairwise (fun h k => h.path = k.path → h.writeEn = false ∧ k.writeEn = false)

instance (held : List Holder) : Decidable (Exclusive held) := by
  unfold Exclusive; infer_instance

end Client

/-- The entry the loop of `RegisterDb` stops at: the first one, in list
order, whose path is exactly `dbPath`. -/
def DbManager.firstAt (m : DbManager) (dbPath : CPath) : Option GTagsDb :=
  m._dbList.find? (fun dbi => decide (dbi._path = dbPath))

/-! ## The plugin routines of GTags.cpp -/

/-- Modelled from the spec: `CPath::IsContainedIn`, the converse of
`Contains`: the path lies in, or is, the directory. -/
def CPath.IsContainedIn (p dir : CPath) : Bool :=
  dir.Contains p

/-- The command identifiers used by the routines embedded here. -/
inductive CmdId where
  | CREATE_DATABASE
  | UPDATE_SINGLE
deriving DecidableEq, Repr

/-- What a `CmdData` is built from: the command, the database handle and the
file the command is about, if any. -/
structure CmdData where
  id : CmdId
  db : DbHandle
  tag : Option CPath
deriving DecidableEq, Repr

/-- What the routines get from outside: the disk, the path of the active
document (`INpp::GetFilePath`), the answer to the yes/no message box, the
folder chosen in `SHBrowseForFolder` (`none` when the dialog is cancelled), and
`Cmd::Run`. `Cmd.h` is not among the sources: `Cmd::Run` starts the command on
a thread of its own and returns whether it was started, so it is a parameter
giving that result and the registry it leaves. -/
structure Env where
  disk : Disk
  GetFilePath : CPath
  answerYes : Bool
  SHBrowseForFolder : Option CPath
  CmdRun : DbManager → CmdData → Bool × DbManager

/-- The state the routines share: the registry and the list of files waiting
for an update. -/
structure Plugin where
  mgr : DbManager
  UpdateList : List CPath
deriving DecidableEq, Repr

/-- The loop of `sheduleForUpdate`, over the reversed list: is `file` queued? -/
def sheduleForUpdate.scan (file : CPath) : List CPath → Bool
  | [] => false
  | updFile :: rest => if updFile = file then true else sheduleForUpdate.scan file rest

/-- The routine `sheduleForUpdate`. -/
def sheduleForUpdate (s : Plugin) (file : CPath) : Plugin :=
  if sheduleForUpdate.scan file s.UpdateList.reverse then s
  else { s with UpdateList := s.UpdateList ++ [file] }

/-- How a call of `UpdateSingleFile` ended. -/
inductive UpdateOutcome where
  | notFound
  | stillLocked
  | notStarted
  | started
deriving DecidableEq, Repr

/-- The routine `UpdateSingleFile`; `file = none` is the `NULL` argument.
Returns the result, the state, and which return statement was taken. -/
def UpdateSingleFile (env : Env) (s : Plugin) (file : Option CPath) :
    Bool × Plugin × UpdateOutcome :=
  let currentFile := match file with
    | some f => f
    | none => env.GetFilePath
  match s.mgr.GetDb env.disk currentFile true (some false) with
  | (none, _, m) => (false, { s with mgr := m }, .notFound)
  | (some a, success, m) =>
    if success ≠ some true then
      (true, sheduleForUpdate { s with mgr := m } currentFile, .stillLocked)
    else if !(env.CmdRun m ⟨.UPDATE_SINGLE, some a, some currentFile⟩).1 then
      (false, { s with mgr := (env.CmdRun m ⟨.UPDATE_SINGLE, some a, some currentFile⟩).2 },
       .notStarted)
    else
      (true, { s with mgr := (env.CmdRun m ⟨.UPDATE_SINGLE, some a, some currentFile⟩).2 },
       .started)

/-- The block of `runSheduledUpdate` that runs under `UpdateLock`: find the
first queued file contained in `dbPath` and erase it from the list. `none`
when the list holds no such file. -/
def runSheduledUpdate.pick (dbPath : CPath) : List CPath → Option (CPath × List CPath)
  | [] => none
  | updFile :: rest =>
    if updFile.IsContainedIn dbPath then some (updFile, rest)
    else
      match runSheduledUpdate.pick dbPath rest with
      | none => none
      | some (file, l) => some (file, updFile :: l)

/-- The routine `runSheduledUpdate`. The first argument bounds the depth of
the recursion, `none` is returned when it is used up. The result is the
returned value, the state, and the calls of `UpdateSingleFile` made, in
order, each with its file, its result and how it ended. -/
def runSheduledUpdate (env : Env) (dbPath : CPath) :
    Nat → Plugin → Option (Bool × Plugin × List (CPath × Bool × UpdateOutcome))
  | 0, _ => none
  | fuel + 1, s =>
    if s.UpdateList.isEmpty then some (false, s, [])
    else
      match runSheduledUpdate.pick dbPath s.UpdateList with
      | none => some (false, s, [])
      | some (file, l) =>
        if !(UpdateSingleFile env { s with UpdateList := l } (some file)).1 then
          match runSheduledUpdate env dbPath fuel
              (UpdateSingleFile env { s with UpdateList := l } (some file)).2.1 with
          | none => none
          | some (r, s', log) =>
            some (r, s',
              (file, false,
                (UpdateSingleFile env { s with UpdateList := l } (some file)).2.2) :: log)
        else
          some (true, (UpdateSingleFile env { s with UpdateList := l } (some file)).2.1,
            [(file, true, (UpdateSingleFile env { s with UpdateList := l } (some file)).2.2)])

/-- What `CreateDatabase` does with a handle. -/
inductive Action where
  | PutDB (db : DbHandle)
  | CmdRun (cmd : CmdData)
deriving DecidableEq, Repr

/-- The routine `CreateDatabase`: the state afterwards, and the calls of
`PutDB` and `Cmd::Run` it made. -/
def CreateDatabase (env : Env) (s : Plugin) : Plugin × List Action :=
  match s.mgr.GetDb env.disk env.GetFilePath true (some false) with
  | (some a, _, m) =>
    if !env.answerYes then
      ({ s with mgr := (m.PutDb (some a)).2 }, [.PutDB (some a)])
    else
      ({ s with mgr := (env.CmdRun m ⟨.CREATE_DATABASE, some a, none⟩).2 },
       [.CmdRun ⟨.CREATE_DATABASE, some a, none⟩])
  | (none, _, m) =>
    match env.SHBrowseForFolder with
    | none => ({ s with mgr := m }, [])
    | some path =>
      ({ s with mgr := (env.CmdRun (m.RegisterDb path true).2
          ⟨.CREATE_DATABASE, (m.RegisterDb path true).1, none⟩).2 },
       [.CmdRun ⟨.CREATE_DATABASE, (m.RegisterDb path true).1, none⟩])

/-- The routine `getDatabase`: the handle it returns, and the state. -/
def getDatabase (env : Env) (s : Plugin) (writeEn : Bool) : DbHandle × Plugin :=
  match s.mgr.GetDb env.disk env.GetFilePath writeEn (some false) with
  | (none, _, m) => (none, { s with mgr := m })
  | (some a, success, m) =>
    if success ≠ some true then (none, { s with mgr := m })
    else (some a, { s with mgr := m })

/-- One call on the queue, or any other activity, which leaves some registry. -/
inductive QueueCall where
  | sheduleForUpdate (file : CPath)
  | runSheduledUpdate (dbPath : CPath)
  | other (mgr : DbManager)

/-- The state after one call. -/
def Plugin.step (s : Plugin) (env : Env) : QueueCall → Plugin
  | .sheduleForUpdate file => sheduleForUpdate s file
  | .runSheduledUpdate dbPath =>
    match runSheduledUpdate env dbPath (s.UpdateList.length + 1) s with
    | some r => r.2.1
    | none => s
  | .other mgr => { s with mgr := mgr }

/-- The state after a sequence of calls. -/
def Plugin.run : List (Env × QueueCall) → Plugin → Plugin
  | [], s => s
  | (env, c) :: rest, s => Plugin.run rest (s.step env c)

/-! ## The library list of the configuration window -/

namespace ConfigWin

/-- The C routine `_tcsstr` on the text from its start: the index, counted
from `off`, of the first place where `sub` occurs. -/
def tcsstrFrom (sub : List Char) : List Char → Nat → Option Nat
  | [], off => if sub = [] then some off else none
  | c :: cs, off =>
    if sub.isPrefixOf (c :: cs) then some off else tcsstrFrom sub cs (off + 1)

/-- The call `_tcsstr(ptr, sub)` where `ptr` points at index `ptr` of `buf`:
the index in `buf` of the first occurrence of `sub` at or after `ptr`. -/
def tcsstr (buf : List Char) (ptr : Nat) (sub : List Char) : Option Nat :=
  tcsstrFrom sub (buf.drop ptr) ptr

/-- The `for` loop of the handler of the "Add Library DB" button in
`ConfigWin::wndProc`, entered with `ptr` (`none` is `NULL`). The first
argument bounds the number of iterations; the result is the value of `found`
at the exit of the loop, `none` when the bound is used up. -/
def findLibrary (buf libraryPath : List Char) : Nat → Option Nat → Option Bool
  | 0, _ => none
  | _ + 1, none => some false
  | fuel + 1, some ptr =>
    match buf.get? (ptr + libraryPath.length) with
    | none => some true
    | some c =>
      if c = ';' then some true
      else findLibrary buf libraryPath fuel (tcsstr buf ptr libraryPath)

/-- The search of the handler: the loop entered with
`_tcsstr(&buf, libraryPath.C_str())`. -/
def searchLibrary (fuel : Nat) (buf libraryPath : List Char) : Option Bool :=
  findLibrary buf libraryPath fuel (tcsstr buf 0 libraryPath)

end ConfigWin

/-! ## A small project tree used in the concrete runs -/

namespace Sample

/-- The directory `C:\a\`. -/
def dirA : CPath := ⟨["C:", "a"]⟩

/-- The directory `C:\a\b\`. -/
def dirB : CPath := ⟨["C:", "a", "b"]⟩

/-- The file `C:\a\b\f.c`. -/
def fileB : CPath := ⟨["C:", "a", "b", "f.c"]⟩

/-- A disk on which `C:\a\GTAGS` is the only marker and no deletion
succeeds. -/
def markerAtA : Disk :=
  { FileExists := fun p => decide (p = dirA.append "GTAGS"),
    DeleteFile := fun _ => false }

/-- A disk without any marker, on which `GTAGS` cannot be deleted but every
other file can. -/
def gtagsStuck : Disk :=
  { FileExists := fun _ => false,
    DeleteFile := fun p => decide (p ≠ dirA.append "GTAGS") }

/-- A disk without any marker on which every deletion succeeds. -/
def allDeletable : Disk :=
  { FileExists := fun _ => false,
    DeleteFile := fun _ => true }

/-- The file `C:\a\g.c`. -/
def fileG : CPath := ⟨["C:", "a", "g.c"]⟩

/-- An environment on which `C:\a\GTAGS` is the only marker, the active
document is `C:\a\b\f.c`, the message box is answered as given, the folder
dialog is cancelled, and `Cmd::Run` starts every command and leaves the
registry as it is. -/
def envAtA (answerYes : Bool) : Env :=
  { disk := markerAtA, GetFilePath := fileB, answerYes := answerYes,
    SHBrowseForFolder := none, CmdRun := fun m _ => (true, m) }

/-- An environment like `envAtA` but without any marker on the disk. -/
def envBare : Env :=
  { disk := allDeletable, GetFilePath := fileB, answerYes := false,
    SHBrowseForFolder := none, CmdRun := fun m _ => (true, m) }

/-- The registry whose only entry, `C:\a\`, is held by two readers. -/
def twoReaders : DbManager := DbManager.mk [⟨0, dirA, .readLocked 1⟩] 1

/-- The state in which the only entry, `C:\a\`, is write-locked by some
running command, with the given files waiting for an update. -/
def busyA (UpdateList : List CPath) : Plugin :=
  { mgr := DbManager.mk [⟨0, dirA, .writeLocked⟩] 1, UpdateList := UpdateList }

/-- A disk on which `C:\a\GTAGS` and `C:\a\b\GTAGS` both exist and no
deletion succeeds. -/
def markersAtAB : Disk :=
  { FileExists := fun p => decide (p = dirA.append "GTAGS" ∨ p = dirB.append "GTAGS"),
    DeleteFile := fun _ => false }

end Sample

end GTags

/-! # Properties -/

namespace GTags

/-! ## Auxiliary facts about the loops -/

theorem GTagsDb.Unlock_addr (db : GTagsDb) : db.Unlock.addr = db.addr := by
  unfold GTagsDb.Unlock
  split <;> rfl

theorem GTagsDb.Unlock_path (db : GTagsDb) : db.Unlock._path = db._path := by
  unfold GTagsDb.Unlock
  split <;> rfl

theorem GTagsDb.Unlock_count (db : GTagsDb) :
    db.Unlock.lock.count = db.lock.count - 1 := by
  unfold GTagsDb.Unlock
  split <;> simp_all [LockState.count]

theorem GTagsDb.IsLocked_iff_count (db : GTagsDb) :
    db.IsLocked = true ↔ db.lock.count ≠ 0 := by
  unfold GTagsDb.IsLocked
  cases h : db.lock <;> simp [LockState.count]

theorem GTagsDb.Lock_granted_iff (e : GTagsDb) (w : Bool) :
    (e.Lock w).1 = true
      ↔ (w = false ∧ e.lock ≠ .writeLocked) ∨ (w = true ∧ e.lock = .unlocked) := by
  obtain ⟨addr, path, lock⟩ := e
  cases w <;> cases lock <;> simp [GTagsDb.Lock]

theorem GTagsDb.Lock_refused (e : GTagsDb) (w : Bool) (h : (e.Lock w).1 = false) :
    (e.Lock w).2 = e := by
  obtain ⟨addr, path, lock⟩ := e
  cases w <;> cases lock <;> simp_all [GTagsDb.Lock]

theorem GTagsDb.Lock_granted (e : GTagsDb) (w : Bool) (h : (e.Lock w).1 = true) :
    (e.Lock w).2.addr = e.addr ∧ (e.Lock w).2._path = e._path
      ∧ (e.Lock w).2.lock.count = e.lock.count + 1
      ∧ (w = true → (e.Lock w).2.lock = .writeLocked)
      ∧ (w = false → ∃ n, (e.Lock w).2.lock = .readLocked n) := by
  obtain ⟨addr, path, lock⟩ := e
  cases w <;> cases lock <;> simp_all [GTagsDb.Lock, LockState.count]

theorem GTagsDb.not_IsLocked_iff_count (db : GTagsDb) :
    db.IsLocked = false ↔ db.lock.count = 0 := by
  unfold GTagsDb.IsLocked
  cases h : db.lock <;> simp [LockState.count]

theorem GTagsDb.Lock_unlocked (e : GTagsDb) (w : Bool) (h : e.IsLocked = false) :
    (e.Lock w).2
      = ⟨e.addr, e._path, if w then .writeLocked else .readLocked 0⟩ := by
  obtain ⟨addr, path, lock⟩ := e
  cases w <;> cases lock <;> simp_all [GTagsDb.Lock, GTagsDb.IsLocked]

theorem CPath.StripFilename_append (p : CPath) (name : String) :
    (p.append name).StripFilename = p := by
  simp [CPath.StripFilename, CPath.append]

theorem DbManager.firstAt_split {m : DbManager} {p : CPath} {e : GTagsDb}
    (h : m.firstAt p = some e) :
    e._path = p ∧ ∃ l1 l2, m._dbList = l1 ++ e :: l2 ∧ ∀ x ∈ l1, x._path ≠ p := by
  unfold DbManager.firstAt at h
  rw [List.find?_eq_some] at h
  obtain ⟨he, l1, l2, hl, hn⟩ := h
  refine ⟨by simpa using he, l1, l2, hl, ?_⟩
  intro x hx
  simpa using hn x hx

theorem DbManager.RegisterDb_scan_none (p : CPath) (w : Bool) :
    ∀ l : List GTagsDb, (∀ x ∈ l, x._path ≠ p) →
      DbManager.RegisterDb.scan p w l = none := by
  intro l
  induction l with
  | nil => intro _; rfl
  | cons x l ih =>
    intro h
    have hx := h x (List.mem_cons_self _ _)
    have ih2 := ih (fun y hy => h y (List.mem_cons_of_mem _ hy))
    simp [DbManager.RegisterDb.scan, hx, ih2]

theorem DbManager.RegisterDb_scan_split (p : CPath) (w : Bool) (e : GTagsDb)
    (l1 l2 : List GTagsDb) (he : e._path = p) (hn : ∀ x ∈ l1, x._path ≠ p) :
    DbManager.RegisterDb.scan p w (l1 ++ e :: l2)
      = if e.IsLocked then some (none, l1 ++ e :: l2)
        else some (some e.addr, l1 ++ (e.Lock w).2 :: l2) := by
  induction l1 with
  | nil => simp [DbManager.RegisterDb.scan, he]
  | cons x l1 ih =>
    have hx := hn x (List.mem_cons_self _ _)
    have ih2 := ih (fun y hy => hn y (List.mem_cons_of_mem _ hy))
    cases hl : e.IsLocked <;>
      simp [DbManager.RegisterDb.scan, hx, ih2, hl]

theorem DbManager.deleteDb_eq (disk : Disk) (p : CPath) :
    DbManager.deleteDb disk p
      = if disk.DeleteFile (p.append "GTAGS") then
          if disk.DeleteFile (p.append "GPATH") then
            (disk.DeleteFile (p.append "GRTAGS"),
              [p.append "GTAGS", p.append "GPATH", p.append "GRTAGS"])
          else (false, [p.append "GTAGS", p.append "GPATH"])
        else (false, [p.append "GTAGS"]) := by
  simp only [DbManager.deleteDb, CPath.StripFilename_append]

theorem DbManager.entryOf_split {m : DbManager} {a : Nat} {e : GTagsDb}
    (h : m.entryOf a = some e) :
    a = e.addr ∧ ∃ l1 l2, m._dbList = l1 ++ e :: l2 ∧ ∀ x ∈ l1, a ≠ x.addr := by
  unfold DbManager.entryOf at h
  rw [List.find?_eq_some] at h
  obtain ⟨he, l1, l2, hl, hn⟩ := h
  refine ⟨by simpa using he, l1, l2, hl, ?_⟩
  intro x hx
  simpa using hn x hx

theorem DbManager.PutDb_scan_split (a : Nat) (e : GTagsDb) (l1 l2 : List GTagsDb)
    (ha : a = e.addr) (hn : ∀ x ∈ l1, a ≠ x.addr) :
    DbManager.PutDb.scan a (l1 ++ e :: l2)
      = (e.Unlock.IsLocked, l1 ++ e.Unlock :: l2) := by
  induction l1 with
  | nil => simp [DbManager.PutDb.scan, ha]
  | cons x l1 ih =>
    have hx : a ≠ x.addr := hn x (List.mem_cons_self _ _)
    have ih2 := ih (fun y hy => hn y (List.mem_cons_of_mem _ hy))
    simp [DbManager.PutDb.scan, hx, ih2]

theorem DbManager.UnregisterDb_scan_split (disk : Disk) (a : Nat) (e : GTagsDb)
    (l1 l2 : List GTagsDb) (ha : a = e.addr) (hn : ∀ x ∈ l1, a ≠ x.addr) :
    DbManager.UnregisterDb.scan disk a (l1 ++ e :: l2)
      = if e.Unlock.IsLocked then (false, l1 ++ e.Unlock :: l2, [])
        else ((DbManager.deleteDb disk e._path).1, l1 ++ l2,
              (DbManager.deleteDb disk e._path).2) := by
  induction l1 with
  | nil =>
    cases hl : e.Unlock.IsLocked <;>
      simp [DbManager.UnregisterDb.scan, ha, hl, GTagsDb.Unlock_path]
  | cons x l1 ih =>
    have hx : a ≠ x.addr := hn x (List.mem_cons_self _ _)
    have ih2 := ih (fun y hy => hn y (List.mem_cons_of_mem _ hy))
    cases hl : e.Unlock.IsLocked <;>
      simp [DbManager.UnregisterDb.scan, hx, ih2, hl]

theorem CPath.Up_fst (p : CPath) : p.Up.1 = p.ancestor (p.parts.length - 1) := by
  simp [CPath.Up, CPath.ancestor, List.dropLast_eq_take]

theorem CPath.Up_snd (p : CPath) : p.Up.2 = p.parts.length - 1 := by
  simp [CPath.Up]

theorem CPath.ancestor_ancestor (p : CPath) (j n : Nat) (h : j ≤ n) :
    (p.ancestor n).ancestor j = p.ancestor j := by
  simp [CPath.ancestor, List.take_take, h]

theorem CPath.ancestor_length (p : CPath) (n : Nat) (h : n ≤ p.parts.length) :
    (p.ancestor n).parts.length = n := by
  simp [CPath.ancestor, h]

theorem DbManager.GetDb_walk_found (disk : Disk) :
    ∀ (fuel : Nat) (p : CPath) (k : Nat), p.parts.length ≤ fuel → 0 < k →
      k < p.parts.length →
      DbManager.DbExistsInFolder disk (p.ancestor k) = true →
      (∀ j, k < j → j < p.parts.length →
        DbManager.DbExistsInFolder disk (p.ancestor j) = false) →
      DbManager.GetDb.walk disk fuel p = (p.ancestor k, k) := by
  intro fuel
  induction fuel with
  | zero => intro p k h0 _ hk; omega
  | succ fuel ih =>
    intro p k hfuel hk0 hk hmark hnear
    have hne : p.parts.length - 1 ≠ 0 := by omega
    rw [DbManager.GetDb.walk, CPath.Up_fst, CPath.Up_snd, if_neg hne]
    by_cases hkl : k = p.parts.length - 1
    · subst hkl
      rw [if_pos hmark]
    · have hlt : k < p.parts.length - 1 := by omega
      have hfalse := hnear (p.parts.length - 1) hlt (by omega)
      rw [hfalse]
      simp only [Bool.false_eq_true, if_false]
      have hlen := CPath.ancestor_length p (p.parts.length - 1) (by omega)
      have := ih (p.ancestor (p.parts.length - 1)) k (by omega) hk0 (by omega)
        (by rw [CPath.ancestor_ancestor p k _ (by omega)]; exact hmark)
        (by
          intro j hj1 hj2
          rw [CPath.ancestor_ancestor p j _ (by omega)]
          exact hnear j hj1 (by omega))
      rw [this, CPath.ancestor_ancestor p k _ (by omega)]

theorem DbManager.GetDb_walk_none (disk : Disk) :
    ∀ (fuel : Nat) (p : CPath), p.parts.length < fuel →
      (∀ j, 0 < j → j < p.parts.length →
        DbManager.DbExistsInFolder disk (p.ancestor j) = false) →
      (DbManager.GetDb.walk disk fuel p).2 = 0 := by
  intro fuel
  induction fuel with
  | zero => intro p h0; omega
  | succ fuel ih =>
    intro p hfuel hnone
    rw [DbManager.GetDb.walk, CPath.Up_fst, CPath.Up_snd]
    by_cases hz : p.parts.length - 1 = 0
    · rw [if_pos hz]
    · rw [if_neg hz, hnone (p.parts.length - 1) (by omega) (by omega)]
      simp only [Bool.false_eq_true, if_false]
      have hlen := CPath.ancestor_length p (p.parts.length - 1) (by omega)
      apply ih
      · omega
      · intro j hj1 hj2
        rw [CPath.ancestor_ancestor p j _ (by omega)]
        exact hnone j hj1 (by omega)

theorem DbManager.lockDb_none (disk : Disk) (f : CPath) (w s : Bool) :
    ∀ l : List GTagsDb, (∀ x ∈ l, x._path.Contains f = false) →
      DbManager.lockDb disk f w s l = (none, s, l) := by
  intro l
  induction l with
  | nil => intro _; rfl
  | cons x l ih =>
    intro h
    have hx := h x (List.mem_cons_self _ _)
    have ih2 := ih (fun y hy => h y (List.mem_cons_of_mem _ hy))
    simp [DbManager.lockDb, hx, ih2]

theorem DbManager.lockDb_split (disk : Disk) (f : CPath) (w s : Bool) (e : GTagsDb)
    (l1 l2 : List GTagsDb) (he : e._path.Contains f = true)
    (hn : ∀ x ∈ l1, x._path.Contains f = false) :
    DbManager.lockDb disk f w s (l1 ++ e :: l2)
      = if DbManager.DbExistsInFolder disk e._path
        then (some e.addr, (e.Lock w).1, l1 ++ (e.Lock w).2 :: l2)
        else (none, s, l1 ++ l2) := by
  induction l1 with
  | nil =>
    cases hd : DbManager.DbExistsInFolder disk e._path <;>
      simp [DbManager.lockDb, he, hd]
  | cons x l1 ih =>
    have hx := hn x (List.mem_cons_self _ _)
    have ih2 := ih (fun y hy => hn y (List.mem_cons_of_mem _ hy))
    cases hd : DbManager.DbExistsInFolder disk e._path <;>
      simp [DbManager.lockDb, hx, ih2, hd]

theorem DbManager.found_split {m : DbManager} {f : CPath} {e : GTagsDb}
    (h : m.found f = some e) :
    e._path.Contains f = true ∧ ∃ l1 l2, m._dbList = l1 ++ e :: l2
      ∧ ∀ x ∈ l1, x._path.Contains f = false := by
  unfold DbManager.found at h
  rw [List.find?_eq_some] at h
  obtain ⟨he, l1, l2, hl, hn⟩ := h
  refine ⟨he, l1, l2, hl, ?_⟩
  intro x hx
  simpa using hn x hx

/-- What `RegisterDb` does on any registry, by the first entry, in list
order, with exactly the requested path: `NULL` and no change if it is locked,
its handle and the lock taken if it is unlocked, a new entry at the back if
there is none. -/
theorem DbManager.RegisterDb_first_match (m : DbManager) (p : CPath) (w : Bool) :
    ((m.RegisterDb p w).1 = none ↔ ∃ e, m.firstAt p = some e ∧ e.IsLocked = true)
    ∧ ((m.RegisterDb p w).1 = none → (m.RegisterDb p w).2 = m)
    ∧ (∀ e, m.firstAt p = some e → e.IsLocked = false →
        ∃ l1 l2, m._dbList = l1 ++ e :: l2 ∧ (∀ x ∈ l1, x._path ≠ p)
          ∧ m.RegisterDb p w
            = (some e.addr,
                { m with _dbList := l1 ++
                    ⟨e.addr, p, if w then .writeLocked else .readLocked 0⟩ :: l2 }))
    ∧ (m.firstAt p = none →
        m.RegisterDb p w
          = (some m.fresh,
              { _dbList := m._dbList ++
                  [⟨m.fresh, p, if w then .writeLocked else .readLocked 0⟩],
                fresh := m.fresh + 1 })) := by
  have hnone : m.firstAt p = none →
      m.RegisterDb p w
        = (some m.fresh,
            { _dbList := m._dbList ++
                [⟨m.fresh, p, if w then .writeLocked else .readLocked 0⟩],
              fresh := m.fresh + 1 }) := by
    intro h
    have hall : ∀ x ∈ m._dbList, x._path ≠ p := by
      unfold DbManager.firstAt at h
      rw [List.find?_eq_none] at h
      intro x hx
      simpa using h x hx
    simp [DbManager.RegisterDb, DbManager.RegisterDb_scan_none p w _ hall,
      DbManager.addDb, GTagsDb.new]
  have hsome : ∀ e, m.firstAt p = some e →
      ∃ l1 l2, m._dbList = l1 ++ e :: l2 ∧ (∀ x ∈ l1, x._path ≠ p)
        ∧ m.RegisterDb p w
          = if e.IsLocked then (none, m)
            else (some e.addr, { m with _dbList := l1 ++ (e.Lock w).2 :: l2 }) := by
    intro e h
    obtain ⟨he, l1, l2, hl, hn⟩ := DbManager.firstAt_split h
    refine ⟨l1, l2, hl, hn, ?_⟩
    have hs := DbManager.RegisterDb_scan_split p w e l1 l2 he hn
    have hm : ({ m with _dbList := l1 ++ e :: l2 } : DbManager) = m := by rw [← hl]
    cases hlk : e.IsLocked
    · simp [DbManager.RegisterDb, hl, hs, hlk]
    · simp [DbManager.RegisterDb, hl, hs, hlk, hm]
  refine ⟨?_, ?_, ?_, hnone⟩
  · cases hfa : m.firstAt p with
    | none => simp [hnone hfa]
    | some e =>
      obtain ⟨l1, l2, _, _, hr⟩ := hsome e hfa
      cases hlk : e.IsLocked <;> simp [hr, hlk]
  · intro hnull
    cases hfa : m.firstAt p with
    | none => simp [hnone hfa] at hnull
    | some e =>
      obtain ⟨l1, l2, _, _, hr⟩ := hsome e hfa
      cases hlk : e.IsLocked
      · simp [hr, hlk] at hnull
      · simp [hr, hlk]
  · intro e hfa hlk
    obtain ⟨l1, l2, hl, hn, hr⟩ := hsome e hfa
    refine ⟨l1, l2, hl, hn, ?_⟩
    have hp := (DbManager.firstAt_split hfa).1
    rw [hr, hlk, GTagsDb.Lock_unlocked e w hlk, hp]
    simp

theorem DbManager.firstAt_of_mem {m : DbManager} {p : CPath} {e : GTagsDb}
    (hnd : m.paths.Nodup) (he : e ∈ m._dbList) (hp : e._path = p) :
    m.firstAt p = some e := by
  cases hfa : m.firstAt p with
  | none =>
    unfold DbManager.firstAt at hfa
    rw [List.find?_eq_none] at hfa
    exact absurd hp (by simpa using hfa e he)
  | some e' =>
    obtain ⟨hp', l1, l2, hl, hn⟩ := DbManager.firstAt_split hfa
    rw [hl] at he
    unfold DbManager.paths at hnd
    rw [hl] at hnd
    simp only [List.map_append, List.map_cons] at hnd
    have h2 := (List.nodup_append.1 hnd).2.1
    rcases List.mem_append.1 he with h | h
    · exact absurd hp (hn e h)
    · rcases List.mem_cons.1 h with h | h
      · rw [h]
      · exfalso
        apply (List.nodup_cons.1 h2).1
        rw [hp', ← hp]
        exact List.mem_map_of_mem _ h

/-! ## The registry reached by sequences of calls -/

/-- C1: the claim that no reachable registry holds two entries with equal
paths fails on the code. Registering `C:\a\b\` and then `C:\a\`, and asking
`GetDb` for `C:\a\b\f.c` while `GTAGS` exists in `C:\a\` only, evicts the
stale entry `C:\a\b\` and then walks up to `C:\a\` and adds it a second time:
the registry holds the path `C:\a\` twice. -/
theorem DbManager.run_duplicate_paths :
    (DbManager.run
        [(Sample.markerAtA, Call.RegisterDb Sample.dirB false),
         (Sample.markerAtA, Call.RegisterDb Sample.dirA false),
         (Sample.markerAtA, Call.GetDb Sample.fileB false)]
        DbManager.empty).paths = [Sample.dirA, Sample.dirA]
    ∧ ¬ (DbManager.run
        [(Sample.markerAtA, Call.RegisterDb Sample.dirB false),
         (Sample.markerAtA, Call.RegisterDb Sample.dirA false),
         (Sample.markerAtA, Call.GetDb Sample.fileB false)]
        DbManager.empty).paths.Nodup := by
  decide

/-- C2: the claim that a write holder never coexists with another holder of
the same anchor directory fails on the code. A caller write-locks `C:\a\b\`
and releases it, a second caller write-locks `C:\a\` with `RegisterDb`, and a
third asks `GetDb` for a write lock on the database of `C:\a\b\f.c` while
`GTAGS` exists in `C:\a\` only: the stale entry is evicted, the walk adds a
second entry for `C:\a\`, write-locked, and reports success. Two successfully
acquired, unreleased write handles are then held on `C:\a\`. -/
theorem Client.run_two_writers :
    (Client.run
        [(Sample.markerAtA, ClientCall.Register Sample.dirB true),
         (Sample.markerAtA, ClientCall.Put 0),
         (Sample.markerAtA, ClientCall.Register Sample.dirA true),
         (Sample.markerAtA, ClientCall.Get Sample.fileB true)]
        Client.init).held
      = [{ db := 1, path := Sample.dirA, writeEn := true },
         { db := 2, path := Sample.dirA, writeEn := true }]
    ∧ ¬ Client.Exclusive (Client.run
        [(Sample.markerAtA, ClientCall.Register Sample.dirB true),
         (Sample.markerAtA, ClientCall.Put 0),
         (Sample.markerAtA, ClientCall.Register Sample.dirA true),
         (Sample.markerAtA, ClientCall.Get Sample.fileB true)]
        Client.init).held := by
  decide

/-! ## PutDb -/

/-- C3, as stated, fails: on a registry whose only entry is held by one
reader, `PutDb` of that entry's handle leaves the entry with lock count zero
and returns `false`, so "returns true iff the count is now zero" is false
there. -/
theorem DbManager.PutDb_last_holder_returns_false :
    ¬ (((DbManager.mk [⟨0, Sample.dirA, .readLocked 0⟩] 1).PutDb (some 0)).1 = true
        ↔ (((DbManager.mk [⟨0, Sample.dirA, .readLocked 0⟩] 1).PutDb
              (some 0)).2.entryOf 0).map (fun e => e.lock.count) = some 0) := by
  decide

/-- C3, amended: for every registry and every handle that identifies a
registered entry, `PutDb` decrements that entry's lock by one unit, leaves
every other entry and the order of the list unchanged, and returns `true` if
and only if the entry is still locked (lock count not zero) after the
decrement. -/
theorem DbManager.PutDb_returns_still_locked (m : DbManager) (a : Nat) (e : GTagsDb)
    (h : m.entryOf a = some e) :
    ∃ l1 l2, m._dbList = l1 ++ e :: l2 ∧ (∀ x ∈ l1, a ≠ x.addr)
      ∧ (m.PutDb (some a)).2 = { m with _dbList := l1 ++ e.Unlock :: l2 }
      ∧ (m.PutDb (some a)).2.entryOf a = some e.Unlock
      ∧ e.Unlock.addr = e.addr ∧ e.Unlock._path = e._path
      ∧ e.Unlock.lock.count = e.lock.count - 1
      ∧ ((m.PutDb (some a)).1 = true ↔ e.Unlock.lock.count ≠ 0) := by
  obtain ⟨ha, l1, l2, hl, hn⟩ := DbManager.entryOf_split h
  have hs := DbManager.PutDb_scan_split a e l1 l2 ha hn
  refine ⟨l1, l2, hl, hn, ?_, ?_, GTagsDb.Unlock_addr e, GTagsDb.Unlock_path e,
    GTagsDb.Unlock_count e, ?_⟩
  · simp [DbManager.PutDb, hl, hs]
  · simp only [DbManager.PutDb, hl, hs, DbManager.entryOf]
    rw [List.find?_eq_some]
    refine ⟨by simp [GTagsDb.Unlock_addr, ha], l1, l2, rfl, ?_⟩
    intro x hx
    simpa using hn x hx
  · simp [DbManager.PutDb, hl, hs, GTagsDb.IsLocked_iff_count]

/-- Witness for C3 (amended): an entry held by two readers; after `PutDb`
one reader is left and the call returns `true`. -/
theorem DbManager.PutDb_returns_still_locked_witness :
    ∃ l1 l2, (DbManager.mk [⟨0, Sample.dirA, .readLocked 1⟩] 1)._dbList
        = l1 ++ (⟨0, Sample.dirA, .readLocked 1⟩ : GTagsDb) :: l2
      ∧ (∀ x ∈ l1, 0 ≠ x.addr)
      ∧ ((DbManager.mk [⟨0, Sample.dirA, .readLocked 1⟩] 1).PutDb (some 0)).2
        = { (DbManager.mk [⟨0, Sample.dirA, .readLocked 1⟩] 1) with
            _dbList := l1 ++ (GTagsDb.mk 0 Sample.dirA (.readLocked 1)).Unlock :: l2 }
      ∧ ((DbManager.mk [⟨0, Sample.dirA, .readLocked 1⟩] 1).PutDb (some 0)).2.entryOf 0
        = some (GTagsDb.mk 0 Sample.dirA (.readLocked 1)).Unlock
      ∧ (GTagsDb.mk 0 Sample.dirA (.readLocked 1)).Unlock.addr = 0
      ∧ (GTagsDb.mk 0 Sample.dirA (.readLocked 1)).Unlock._path = Sample.dirA
      ∧ (GTagsDb.mk 0 Sample.dirA (.readLocked 1)).Unlock.lock.count
        = (LockState.readLocked 1).count - 1
      ∧ (((DbManager.mk [⟨0, Sample.dirA, .readLocked 1⟩] 1).PutDb (some 0)).1 = true
        ↔ (GTagsDb.mk 0 Sample.dirA (.readLocked 1)).Unlock.lock.count ≠ 0) :=
  DbManager.PutDb_returns_still_locked
    (DbManager.mk [⟨0, Sample.dirA, .readLocked 1⟩] 1) 0
    ⟨0, Sample.dirA, .readLocked 1⟩ (by decide)

/-! ## GetDb -/

/-- C4, as stated, fails: the registry holds the idle entry `C:\a\b\` whose
`GTAGS` is gone, and `GTAGS` exists in `C:\a\`. `GetDb` for `C:\a\b\f.c`
finds that entry, evicts it, and then walks up: it returns a handle with
`success = true`, having registered and read-locked a new entry `C:\a\`,
instead of reporting NotFound. -/
theorem DbManager.GetDb_stale_then_discovers :
    (DbManager.mk [⟨0, Sample.dirB, .unlocked⟩] 1).found Sample.fileB
        = some ⟨0, Sample.dirB, .unlocked⟩
    ∧ DbManager.DbExistsInFolder Sample.markerAtA Sample.dirB = false
    ∧ (DbManager.mk [⟨0, Sample.dirB, .unlocked⟩] 1).GetDb Sample.markerAtA
          Sample.fileB false (some false)
        = (some 1, some true, DbManager.mk [⟨1, Sample.dirA, .readLocked 0⟩] 2) := by
  decide

/-- C4, amended: if the entry found to contain the file path has no `GTAGS`
marker in its directory any more, `GetDb` removes that entry from the
registry and changes no other registered entry (so it grants no lock on a
registered entry); the registry afterwards is the old one without that
entry, plus at most one new entry at the back. If moreover no ancestor
directory of the file path holds the marker, `GetDb` returns `NULL` with
`success = false` and registers no entry. -/
theorem DbManager.GetDb_evicts_stale (m : DbManager) (disk : Disk) (f : CPath)
    (w s : Bool) (e : GTagsDb) (hf : m.found f = some e)
    (hs : DbManager.DbExistsInFolder disk e._path = false) :
    ∃ l1 l2, m._dbList = l1 ++ e :: l2 ∧ (∀ x ∈ l1, x._path.Contains f = false)
      ∧ ((m.GetDb disk f w (some s)).2.2._dbList = l1 ++ l2
          ∨ ∃ d, (m.GetDb disk f w (some s)).2.2._dbList
                = l1 ++ l2 ++ [GTagsDb.new m.fresh d w])
      ∧ ((∀ j, 0 < j → j < f.parts.length →
            DbManager.DbExistsInFolder disk (f.ancestor j) = false) →
          m.GetDb disk f w (some s)
            = (none, some false, { m with _dbList := l1 ++ l2 })) := by
  obtain ⟨he, l1, l2, hl, hn⟩ := DbManager.found_split hf
  have hlock := DbManager.lockDb_split disk f w false e l1 l2 he hn
  rw [hs] at hlock
  simp only [Bool.false_eq_true, if_false] at hlock
  refine ⟨l1, l2, hl, hn, ?_, ?_⟩
  · by_cases hw : (DbManager.GetDb.walk disk (f.parts.length + 1) f).2 = 0
    · left
      simp [DbManager.GetDb, hl, hlock, hw]
    · right
      exact ⟨(DbManager.GetDb.walk disk (f.parts.length + 1) f).1, by
        simp [DbManager.GetDb, hl, hlock, hw, DbManager.addDb]⟩
  · intro hnone
    have hw := DbManager.GetDb_walk_none disk (f.parts.length + 1) f (by omega) hnone
    simp [DbManager.GetDb, hl, hlock, hw]

/-- Witness for C4 (amended): the stale idle entry `C:\a\b\` on a disk
without any marker: it is evicted and `GetDb` reports NotFound. -/
theorem DbManager.GetDb_evicts_stale_witness :
    ∃ l1 l2, (DbManager.mk [⟨0, Sample.dirB, .unlocked⟩] 1)._dbList
        = l1 ++ (⟨0, Sample.dirB, .unlocked⟩ : GTagsDb) :: l2
      ∧ (∀ x ∈ l1, x._path.Contains Sample.fileB = false)
      ∧ (((DbManager.mk [⟨0, Sample.dirB, .unlocked⟩] 1).GetDb Sample.allDeletable
              Sample.fileB true (some true)).2.2._dbList = l1 ++ l2
          ∨ ∃ d, ((DbManager.mk [⟨0, Sample.dirB, .unlocked⟩] 1).GetDb
              Sample.allDeletable Sample.fileB true (some true)).2.2._dbList
                = l1 ++ l2 ++ [GTagsDb.new 1 d true])
      ∧ ((∀ j, 0 < j → j < Sample.fileB.parts.length →
            DbManager.DbExistsInFolder Sample.allDeletable (Sample.fileB.ancestor j)
              = false) →
          (DbManager.mk [⟨0, Sample.dirB, .unlocked⟩] 1).GetDb Sample.allDeletable
              Sample.fileB true (some true)
            = (none, some false,
                { (DbManager.mk [⟨0, Sample.dirB, .unlocked⟩] 1) with
                  _dbList := l1 ++ l2 })) :=
  DbManager.GetDb_evicts_stale (DbManager.mk [⟨0, Sample.dirB, .unlocked⟩] 1)
    Sample.allDeletable Sample.fileB true true ⟨0, Sample.dirB, .unlocked⟩
    (by decide) (by decide)

/-- C5: for every file path that no registered entry contains: if an
ancestor directory of the file path holds `GTAGS` and no nearer ancestor
does, `GetDb` appends exactly one entry, whose path is that ancestor, locked
in the requested mode, and returns its handle with `success = true`; if no
ancestor holds `GTAGS`, `GetDb` returns `NULL` with `success = false` and
the registry is unchanged. The ancestors of a path of `n` components are its
first `k` components for `0 < k < n`, the directories `Up` steps through. -/
theorem DbManager.GetDb_discovers (m : DbManager) (disk : Disk) (f : CPath)
    (w s : Bool) (hno : ∀ e ∈ m._dbList, e._path.Contains f = false) :
    (∀ k, 0 < k → k < f.parts.length →
        DbManager.DbExistsInFolder disk (f.ancestor k) = true →
        (∀ j, k < j → j < f.parts.length →
          DbManager.DbExistsInFolder disk (f.ancestor j) = false) →
        m.GetDb disk f w (some s)
          = (some m.fresh, some true,
              { _dbList := m._dbList ++
                  [⟨m.fresh, f.ancestor k, if w then .writeLocked else .readLocked 0⟩],
                fresh := m.fresh + 1 }))
    ∧ ((∀ j, 0 < j → j < f.parts.length →
          DbManager.DbExistsInFolder disk (f.ancestor j) = false) →
        m.GetDb disk f w (some s) = (none, some false, m)) := by
  have hlock := DbManager.lockDb_none disk f w false m._dbList hno
  constructor
  · intro k hk0 hk hmark hnear
    have hw := DbManager.GetDb_walk_found disk (f.parts.length + 1) f k (by omega)
      hk0 hk hmark hnear
    have hk' : k ≠ 0 := by omega
    simp [DbManager.GetDb, hlock, hw, hk', DbManager.addDb, GTagsDb.new]
  · intro hnone
    have hw := DbManager.GetDb_walk_none disk (f.parts.length + 1) f (by omega) hnone
    simp [DbManager.GetDb, hlock, hw]

/-- Witness for C5: on the empty registry, with `GTAGS` in `C:\a\` only,
`GetDb` for `C:\a\b\f.c` registers `C:\a\` read-locked. -/
theorem DbManager.GetDb_discovers_witness :
    DbManager.empty.GetDb Sample.markerAtA Sample.fileB false (some false)
      = (some 0, some true,
          { _dbList := [⟨0, Sample.fileB.ancestor 2, .readLocked 0⟩], fresh := 1 }) :=
  (DbManager.GetDb_discovers DbManager.empty Sample.markerAtA Sample.fileB false false
    (by decide)).1 2 (by decide) (by decide) (by decide)
    (by
      intro j h1 h2
      have h3 : j < 4 := h2
      have : j = 3 := by omega
      subst this
      decide)

/-- C6, as stated, fails: after `RegisterDb(C:\a\, write)`,
`RegisterDb(C:\a\b\, write)` and `PutDb` of the second handle, the registry
holds `C:\a\` write-locked followed by `C:\a\b\` unlocked, and both have
their `GTAGS`. The registered entry `C:\a\b\` contains `C:\a\b\f.c`, its
marker exists and a write request is compatible with its unlocked state, yet
`GetDb` stops at `C:\a\`, which also contains the file, and returns that
handle with `success = false`, taking no lock. -/
theorem DbManager.GetDb_stops_at_first_containing_entry :
    DbManager.run
        [(Sample.markersAtAB, Call.RegisterDb Sample.dirA true),
         (Sample.markersAtAB, Call.RegisterDb Sample.dirB true),
         (Sample.markersAtAB, Call.PutDb (some 1))]
        DbManager.empty
      = DbManager.mk [⟨0, Sample.dirA, .writeLocked⟩, ⟨1, Sample.dirB, .unlocked⟩] 2
    ∧ (⟨1, Sample.dirB, .unlocked⟩ : GTagsDb)
        ∈ (DbManager.mk [⟨0, Sample.dirA, .writeLocked⟩, ⟨1, Sample.dirB, .unlocked⟩] 2)._dbList
    ∧ Sample.dirB.Contains Sample.fileB = true
    ∧ DbManager.DbExistsInFolder Sample.markersAtAB Sample.dirB = true
    ∧ (DbManager.mk [⟨0, Sample.dirA, .writeLocked⟩, ⟨1, Sample.dirB, .unlocked⟩] 2).GetDb
          Sample.markersAtAB Sample.fileB true (some false)
        = (some 0, some false,
            DbManager.mk [⟨0, Sample.dirA, .writeLocked⟩, ⟨1, Sample.dirB, .unlocked⟩] 2) := by
  decide

/-- C6, amended: when the first registered entry, in list order, that
contains the file path has its `GTAGS` marker, `GetDb` returns that entry's
handle, never `NULL`, and sets `success = true` exactly when the request is
compatible with that entry's lock state (a read request on an entry that is
not write-locked, a write request on an unlocked entry); it then takes the
lock on that entry and changes nothing else. On a conflict it returns the
handle with `success = false` and the registry is unchanged. Entries further
down the list that contain the file path too are not looked at. -/
theorem DbManager.GetDb_found_live (m : DbManager) (disk : Disk) (f : CPath)
    (w s : Bool) (e : GTagsDb) (hf : m.found f = some e)
    (hl : DbManager.DbExistsInFolder disk e._path = true) :
    (m.GetDb disk f w (some s)).1 = some e.addr
    ∧ ((m.GetDb disk f w (some s)).2.1 = some true
        ↔ (w = false ∧ e.lock ≠ .writeLocked) ∨ (w = true ∧ e.lock = .unlocked))
    ∧ ((m.GetDb disk f w (some s)).2.1 = some true →
        ∃ l1 l2 e', m._dbList = l1 ++ e :: l2
          ∧ (∀ x ∈ l1, x._path.Contains f = false)
          ∧ (m.GetDb disk f w (some s)).2.2 = { m with _dbList := l1 ++ e' :: l2 }
          ∧ e'.addr = e.addr ∧ e'._path = e._path
          ∧ e'.lock.count = e.lock.count + 1
          ∧ (w = true → e'.lock = .writeLocked)
          ∧ (w = false → ∃ n, e'.lock = .readLocked n))
    ∧ ((m.GetDb disk f w (some s)).2.1 ≠ some true →
        m.GetDb disk f w (some s) = (some e.addr, some false, m)) := by
  obtain ⟨he, l1, l2, hsplit, hn⟩ := DbManager.found_split hf
  have hlock := DbManager.lockDb_split disk f w false e l1 l2 he hn
  rw [hl] at hlock
  simp only [if_true] at hlock
  have hget : m.GetDb disk f w (some s)
      = (some e.addr, some (e.Lock w).1, { m with _dbList := l1 ++ (e.Lock w).2 :: l2 }) := by
    simp [DbManager.GetDb, hsplit, hlock]
  rw [hget]
  refine ⟨rfl, ?_, ?_, ?_⟩
  · simpa using GTagsDb.Lock_granted_iff e w
  · intro hsucc
    have hg : (e.Lock w).1 = true := by simpa using hsucc
    exact ⟨l1, l2, (e.Lock w).2, hsplit, hn, rfl, GTagsDb.Lock_granted e w hg⟩
  · intro hfail
    have hg : (e.Lock w).1 = false := by simpa using hfail
    have hm : ({ m with _dbList := l1 ++ e :: l2 } : DbManager) = m := by
      rw [← hsplit]
    simp only [hg, GTagsDb.Lock_refused e w hg, hm]

/-- Witness for C6 (amended): the entry `C:\a\` is write-locked and its marker exists;
a read request for `C:\a\b\f.c` gets the handle with `success = false` and
the registry is unchanged. -/
theorem DbManager.GetDb_found_live_witness :
    (DbManager.mk [⟨0, Sample.dirA, .writeLocked⟩] 1).GetDb Sample.markerAtA
        Sample.fileB false (some false)
      = (some 0, some false, DbManager.mk [⟨0, Sample.dirA, .writeLocked⟩] 1) :=
  (DbManager.GetDb_found_live (DbManager.mk [⟨0, Sample.dirA, .writeLocked⟩] 1)
    Sample.markerAtA Sample.fileB false false ⟨0, Sample.dirA, .writeLocked⟩
    (by decide) (by decide)).2.2.2 (by decide)

/-! ## RegisterDb -/

/-- C7, as stated, fails on a registry the calls can reach: after
`RegisterDb(C:\a\b\)`, `RegisterDb(C:\a\)`, `PutDb` of the second handle and
a `GetDb` for `C:\a\b\f.c` with `GTAGS` in `C:\a\` only, the list holds an
idle entry `C:\a\` followed by a read-locked entry `C:\a\`. `RegisterDb` of
`C:\a\` stops at the first one and returns its handle, although an entry with
exactly that path exists and is locked. -/
theorem DbManager.RegisterDb_ignores_later_locked_entry :
    ¬ (((DbManager.run
          [(Sample.markerAtA, Call.RegisterDb Sample.dirB false),
           (Sample.markerAtA, Call.RegisterDb Sample.dirA false),
           (Sample.markerAtA, Call.PutDb (some 1)),
           (Sample.markerAtA, Call.GetDb Sample.fileB false)]
          DbManager.empty).RegisterDb Sample.dirA true).1 = none
        ↔ ∃ e ∈ (DbManager.run
          [(Sample.markerAtA, Call.RegisterDb Sample.dirB false),
           (Sample.markerAtA, Call.RegisterDb Sample.dirA false),
           (Sample.markerAtA, Call.PutDb (some 1)),
           (Sample.markerAtA, Call.GetDb Sample.fileB false)]
          DbManager.empty)._dbList, e._path = Sample.dirA ∧ e.IsLocked = true) := by
  decide

/-- C7, amended: for every registry whose entries have pairwise distinct
paths, and every path and requested mode, `RegisterDb` returns `NULL` if and
only if an entry with exactly that path exists and is currently locked, and
then the registry is unchanged; if an entry with that path exists and is
unlocked, `RegisterDb` returns its handle and locks it in the requested mode,
leaving every other entry unchanged and adding none; if no entry has that
path, it appends a new entry with that path, locked in the requested mode,
and returns its handle. -/
theorem DbManager.RegisterDb_distinct_paths (m : DbManager) (p : CPath) (w : Bool)
    (hnd : m.paths.Nodup) :
    ((m.RegisterDb p w).1 = none
        ↔ ∃ e ∈ m._dbList, e._path = p ∧ e.IsLocked = true)
    ∧ ((m.RegisterDb p w).1 = none → (m.RegisterDb p w).2 = m)
    ∧ (∀ e ∈ m._dbList, e._path = p → e.IsLocked = false →
        ∃ l1 l2, m._dbList = l1 ++ e :: l2
          ∧ m.RegisterDb p w
            = (some e.addr,
                { m with _dbList := l1 ++
                    ⟨e.addr, p, if w then .writeLocked else .readLocked 0⟩ :: l2 }))
    ∧ ((∀ e ∈ m._dbList, e._path ≠ p) →
        m.RegisterDb p w
          = (some m.fresh,
              { _dbList := m._dbList ++
                  [⟨m.fresh, p, if w then .writeLocked else .readLocked 0⟩],
                fresh := m.fresh + 1 })) := by
  obtain ⟨h1, h2, h3, h4⟩ := DbManager.RegisterDb_first_match m p w
  refine ⟨?_, h2, ?_, ?_⟩
  · rw [h1]
    constructor
    · rintro ⟨e, hfa, hlk⟩
      obtain ⟨hp, l1, l2, hl, _⟩ := DbManager.firstAt_split hfa
      exact ⟨e, by simp [hl], hp, hlk⟩
    · rintro ⟨e, he, hp, hlk⟩
      exact ⟨e, DbManager.firstAt_of_mem hnd he hp, hlk⟩
  · intro e he hp hlk
    obtain ⟨l1, l2, hl, _, hr⟩ := h3 e (DbManager.firstAt_of_mem hnd he hp) hlk
    exact ⟨l1, l2, hl, hr⟩
  · intro hall
    apply h4
    unfold DbManager.firstAt
    rw [List.find?_eq_none]
    intro x hx
    simpa using hall x hx

/-- Witness for C7 (amended): the only entry `C:\a\` is held by a reader, so
`RegisterDb` of `C:\a\` returns `NULL`. -/
theorem DbManager.RegisterDb_distinct_paths_witness :
    ((DbManager.mk [⟨0, Sample.dirA, .readLocked 0⟩] 1).RegisterDb Sample.dirA true).1
        = none
      ↔ ∃ e ∈ (DbManager.mk [⟨0, Sample.dirA, .readLocked 0⟩] 1)._dbList,
          e._path = Sample.dirA ∧ e.IsLocked = true :=
  (DbManager.RegisterDb_distinct_paths
    (DbManager.mk [⟨0, Sample.dirA, .readLocked 0⟩] 1) Sample.dirA true
    (by decide)).1

/-! ## UnregisterDb -/

/-- C8: for every registry and handle of an entry that is still locked
after the caller's unit of lock is given back, `UnregisterDb` returns
`false`, calls `DeleteFile` on nothing, removes no entry, and changes nothing
but that entry's lock, which is one unit lower. -/
theorem DbManager.UnregisterDb_still_held (m : DbManager) (disk : Disk) (a : Nat)
    (e : GTagsDb) (h : m.entryOf a = some e) (hl : e.Unlock.IsLocked = true) :
    ∃ l1 l2, m._dbList = l1 ++ e :: l2 ∧ (∀ x ∈ l1, a ≠ x.addr)
      ∧ m.UnregisterDb disk (some a)
        = (false, { m with _dbList := l1 ++ e.Unlock :: l2 }, [])
      ∧ e.Unlock.addr = e.addr ∧ e.Unlock._path = e._path
      ∧ e.Unlock.lock.count + 1 = e.lock.count := by
  obtain ⟨ha, l1, l2, hsplit, hn⟩ := DbManager.entryOf_split h
  have hs := DbManager.UnregisterDb_scan_split disk a e l1 l2 ha hn
  rw [hl] at hs
  simp only [if_true] at hs
  refine ⟨l1, l2, hsplit, hn, ?_, GTagsDb.Unlock_addr e, GTagsDb.Unlock_path e, ?_⟩
  · simp [DbManager.UnregisterDb, hsplit, hs]
  · have h1 := GTagsDb.Unlock_count e
    have h2 := (GTagsDb.IsLocked_iff_count e.Unlock).1 hl
    omega

/-- Witness for C8: an entry held by two readers; `UnregisterDb` by one of
them leaves it registered with one reader and deletes nothing. -/
theorem DbManager.UnregisterDb_still_held_witness :
    ∃ l1 l2, (DbManager.mk [⟨0, Sample.dirA, .readLocked 1⟩] 1)._dbList
        = l1 ++ (⟨0, Sample.dirA, .readLocked 1⟩ : GTagsDb) :: l2
      ∧ (∀ x ∈ l1, 0 ≠ x.addr)
      ∧ (DbManager.mk [⟨0, Sample.dirA, .readLocked 1⟩] 1).UnregisterDb
          Sample.allDeletable (some 0)
        = (false,
            { (DbManager.mk [⟨0, Sample.dirA, .readLocked 1⟩] 1) with
              _dbList := l1 ++ (GTagsDb.mk 0 Sample.dirA (.readLocked 1)).Unlock :: l2 },
            [])
      ∧ (GTagsDb.mk 0 Sample.dirA (.readLocked 1)).Unlock.addr = 0
      ∧ (GTagsDb.mk 0 Sample.dirA (.readLocked 1)).Unlock._path = Sample.dirA
      ∧ (GTagsDb.mk 0 Sample.dirA (.readLocked 1)).Unlock.lock.count + 1
        = (LockState.readLocked 1).count :=
  DbManager.UnregisterDb_still_held (DbManager.mk [⟨0, Sample.dirA, .readLocked 1⟩] 1)
    Sample.allDeletable 0 ⟨0, Sample.dirA, .readLocked 1⟩ (by decide) (by decide)

/-- C9: for every handle of an entry whose only lock holder is the caller
(lock count one), `UnregisterDb` removes that entry from the registry,
leaving the other entries unchanged, whatever the deletions do, and returns
`true` if and only if `DeleteFile` succeeds on all three of `GTAGS`, `GPATH`
and `GRTAGS` in the entry's directory. -/
theorem DbManager.UnregisterDb_last_holder (m : DbManager) (disk : Disk) (a : Nat)
    (e : GTagsDb) (h : m.entryOf a = some e) (hc : e.lock.count = 1) :
    ∃ l1 l2, m._dbList = l1 ++ e :: l2 ∧ (∀ x ∈ l1, a ≠ x.addr)
      ∧ (m.UnregisterDb disk (some a)).2.1 = { m with _dbList := l1 ++ l2 }
      ∧ ((m.UnregisterDb disk (some a)).1 = true
          ↔ disk.DeleteFile (e._path.append "GTAGS") = true
            ∧ disk.DeleteFile (e._path.append "GPATH") = true
            ∧ disk.DeleteFile (e._path.append "GRTAGS") = true) := by
  obtain ⟨ha, l1, l2, hsplit, hn⟩ := DbManager.entryOf_split h
  have hs := DbManager.UnregisterDb_scan_split disk a e l1 l2 ha hn
  have hu : e.Unlock.IsLocked = false := by
    rw [GTagsDb.not_IsLocked_iff_count, GTagsDb.Unlock_count, hc]
  rw [hu] at hs
  simp only [Bool.false_eq_true, if_false] at hs
  refine ⟨l1, l2, hsplit, hn, ?_, ?_⟩
  · simp [DbManager.UnregisterDb, hsplit, hs]
  · simp only [DbManager.UnregisterDb, hsplit, hs, DbManager.deleteDb_eq]
    cases h1 : disk.DeleteFile (e._path.append "GTAGS") <;>
      cases h2 : disk.DeleteFile (e._path.append "GPATH") <;> simp

/-- Witness for C9: a write-locked entry on a disk where `GTAGS` cannot be
deleted: the entry is removed and the call returns `false`. -/
theorem DbManager.UnregisterDb_last_holder_witness :
    ∃ l1 l2, (DbManager.mk [⟨0, Sample.dirA, .writeLocked⟩] 1)._dbList
        = l1 ++ (⟨0, Sample.dirA, .writeLocked⟩ : GTagsDb) :: l2
      ∧ (∀ x ∈ l1, 0 ≠ x.addr)
      ∧ ((DbManager.mk [⟨0, Sample.dirA, .writeLocked⟩] 1).UnregisterDb
          Sample.gtagsStuck (some 0)).2.1
        = { (DbManager.mk [⟨0, Sample.dirA, .writeLocked⟩] 1) with _dbList := l1 ++ l2 }
      ∧ (((DbManager.mk [⟨0, Sample.dirA, .writeLocked⟩] 1).UnregisterDb
          Sample.gtagsStuck (some 0)).1 = true
          ↔ Sample.gtagsStuck.DeleteFile (Sample.dirA.append "GTAGS") = true
            ∧ Sample.gtagsStuck.DeleteFile (Sample.dirA.append "GPATH") = true
            ∧ Sample.gtagsStuck.DeleteFile (Sample.dirA.append "GRTAGS") = true) :=
  DbManager.UnregisterDb_last_holder (DbManager.mk [⟨0, Sample.dirA, .writeLocked⟩] 1)
    Sample.gtagsStuck 0 ⟨0, Sample.dirA, .writeLocked⟩ (by decide) (by decide)

/-- C10, as stated, fails: on a disk where `GTAGS` cannot be deleted but
`GPATH` and `GRTAGS` can, `UnregisterDb` by the only holder of `C:\a\` calls
`DeleteFile` on `C:\a\GTAGS` and on nothing else: the deletion of `GPATH` is
not attempted. -/
theorem DbManager.UnregisterDb_stops_at_failed_delete :
    ((DbManager.mk [⟨0, Sample.dirA, .writeLocked⟩] 1).UnregisterDb
        Sample.gtagsStuck (some 0)).2.2 = [Sample.dirA.append "GTAGS"]
    ∧ Sample.gtagsStuck.DeleteFile (Sample.dirA.append "GPATH") = true
    ∧ Sample.gtagsStuck.DeleteFile (Sample.dirA.append "GRTAGS") = true
    ∧ Sample.dirA.append "GPATH" ∉
        ((DbManager.mk [⟨0, Sample.dirA, .writeLocked⟩] 1).UnregisterDb
          Sample.gtagsStuck (some 0)).2.2 := by
  decide

/-- C10, amended: when `UnregisterDb` deletes a database (the entry is
unlocked once the caller's lock is given back), it calls `DeleteFile` on
`GTAGS` in the anchor directory first, on `GPATH` next only if the deletion
of `GTAGS` succeeded, and on `GRTAGS` last only if both earlier deletions
succeeded; it stops at the first deletion that fails. -/
theorem DbManager.UnregisterDb_delete_order (m : DbManager) (disk : Disk) (a : Nat)
    (e : GTagsDb) (h : m.entryOf a = some e) (hu : e.Unlock.IsLocked = false) :
    (m.UnregisterDb disk (some a)).2.2
      = e._path.append "GTAGS" ::
          (if disk.DeleteFile (e._path.append "GTAGS") then
            e._path.append "GPATH" ::
              (if disk.DeleteFile (e._path.append "GPATH") then
                [e._path.append "GRTAGS"] else [])
           else []) := by
  obtain ⟨ha, l1, l2, hsplit, hn⟩ := DbManager.entryOf_split h
  have hs := DbManager.UnregisterDb_scan_split disk a e l1 l2 ha hn
  rw [hu] at hs
  simp only [Bool.false_eq_true, if_false] at hs
  simp only [DbManager.UnregisterDb, hsplit, hs, DbManager.deleteDb_eq]
  cases h1 : disk.DeleteFile (e._path.append "GTAGS") <;>
    cases h2 : disk.DeleteFile (e._path.append "GPATH") <;> simp

/-- Witness for C10 (amended): on a disk where every deletion succeeds the
three files are deleted in the order `GTAGS`, `GPATH`, `GRTAGS`. -/
theorem DbManager.UnregisterDb_delete_order_witness :
    ((DbManager.mk [⟨0, Sample.dirA, .writeLocked⟩] 1).UnregisterDb
        Sample.allDeletable (some 0)).2.2
      = [Sample.dirA.append "GTAGS", Sample.dirA.append "GPATH",
         Sample.dirA.append "GRTAGS"] :=
  DbManager.UnregisterDb_delete_order (DbManager.mk [⟨0, Sample.dirA, .writeLocked⟩] 1)
    Sample.allDeletable 0 ⟨0, Sample.dirA, .writeLocked⟩ (by decide) (by decide)

/-! ## Auxiliary facts about the update queue -/

theorem sheduleForUpdate_scan_iff (file : CPath) (l : List CPath) :
    sheduleForUpdate.scan file l = true ↔ file ∈ l := by
  induction l with
  | nil => simp [sheduleForUpdate.scan]
  | cons x l ih =>
    by_cases hx : x = file
    · simp [sheduleForUpdate.scan, hx]
    · have hx' : ¬ file = x := fun h => hx h.symm
      simp [sheduleForUpdate.scan, hx, hx', ih]

theorem sheduleForUpdate_of_mem (s : Plugin) (file : CPath) (h : file ∈ s.UpdateList) :
    sheduleForUpdate s file = s := by
  have : sheduleForUpdate.scan file s.UpdateList.reverse = true := by
    rw [sheduleForUpdate_scan_iff]; simpa using h
  simp [sheduleForUpdate, this]

theorem sheduleForUpdate_of_not_mem (s : Plugin) (file : CPath)
    (h : file ∉ s.UpdateList) :
    sheduleForUpdate s file = { s with UpdateList := s.UpdateList ++ [file] } := by
  have : ¬ sheduleForUpdate.scan file s.UpdateList.reverse = true := by
    rw [sheduleForUpdate_scan_iff]; simpa using h
  simp [sheduleForUpdate, this]

theorem sheduleForUpdate_nodup (s : Plugin) (file : CPath) (h : s.UpdateList.Nodup) :
    (sheduleForUpdate s file).UpdateList.Nodup := by
  by_cases hm : file ∈ s.UpdateList
  · rw [sheduleForUpdate_of_mem s file hm]; exact h
  · rw [sheduleForUpdate_of_not_mem s file hm]
    simp only
    rw [List.nodup_append]
    refine ⟨h, List.nodup_singleton _, ?_⟩
    intro x hx hx'
    rw [List.mem_singleton] at hx'
    exact hm (hx' ▸ hx)

theorem UpdateSingleFile_eq (env : Env) (s : Plugin) (file : Option CPath) :
    UpdateSingleFile env s file
      = match (s.mgr.GetDb env.disk (file.getD env.GetFilePath) true (some false)).1 with
        | none =>
          (false,
            { s with mgr := (s.mgr.GetDb env.disk (file.getD env.GetFilePath) true
                (some false)).2.2 }, .notFound)
        | some a =>
          if (s.mgr.GetDb env.disk (file.getD env.GetFilePath) true (some false)).2.1
              ≠ some true then
            (true,
              sheduleForUpdate
                { s with mgr := (s.mgr.GetDb env.disk (file.getD env.GetFilePath) true
                    (some false)).2.2 } (file.getD env.GetFilePath), .stillLocked)
          else if !(env.CmdRun
              (s.mgr.GetDb env.disk (file.getD env.GetFilePath) true (some false)).2.2
              ⟨.UPDATE_SINGLE, some a, some (file.getD env.GetFilePath)⟩).1 then
            (false,
              { s with mgr := (env.CmdRun
                  (s.mgr.GetDb env.disk (file.getD env.GetFilePath) true (some false)).2.2
                  ⟨.UPDATE_SINGLE, some a, some (file.getD env.GetFilePath)⟩).2 },
              .notStarted)
          else
            (true,
              { s with mgr := (env.CmdRun
                  (s.mgr.GetDb env.disk (file.getD env.GetFilePath) true (some false)).2.2
                  ⟨.UPDATE_SINGLE, some a, some (file.getD env.GetFilePath)⟩).2 },
              .started) := by
  have hcf : (match file with | some f => f | none => env.GetFilePath)
      = file.getD env.GetFilePath := by cases file <;> rfl
  simp only [UpdateSingleFile, hcf]
  generalize s.mgr.GetDb env.disk (file.getD env.GetFilePath) true (some false) = g
  obtain ⟨h, succ, m⟩ := g
  cases h <;> rfl

theorem UpdateSingleFile_false_queue (env : Env) (s : Plugin) (file : Option CPath)
    (h : (UpdateSingleFile env s file).1 = false) :
    (UpdateSingleFile env s file).2.1.UpdateList = s.UpdateList
      ∧ ((UpdateSingleFile env s file).2.2 = .notFound
          ∨ (UpdateSingleFile env s file).2.2 = .notStarted) := by
  rw [UpdateSingleFile_eq] at h ⊢
  cases hg : (s.mgr.GetDb env.disk (file.getD env.GetFilePath) true (some false)).1 with
  | none => simp [hg]
  | some a =>
    simp only [hg] at h ⊢
    split_ifs at h ⊢
    simp_all

theorem UpdateSingleFile_nodup (env : Env) (s : Plugin) (file : Option CPath)
    (h : s.UpdateList.Nodup) :
    (UpdateSingleFile env s file).2.1.UpdateList.Nodup := by
  rw [UpdateSingleFile_eq]
  split
  · exact h
  · split_ifs
    · exact sheduleForUpdate_nodup _ _ h
    · exact h
    · exact h

theorem runSheduledUpdate_pick_none (dbPath : CPath) :
    ∀ l : List CPath, (∀ x ∈ l, x.IsContainedIn dbPath = false) →
      runSheduledUpdate.pick dbPath l = none := by
  intro l
  induction l with
  | nil => intro _; rfl
  | cons x l ih =>
    intro h
    have hx := h x (List.mem_cons_self _ _)
    have ih2 := ih (fun y hy => h y (List.mem_cons_of_mem _ hy))
    simp [runSheduledUpdate.pick, hx, ih2]

theorem runSheduledUpdate_pick_split (dbPath file : CPath) (l1 l2 : List CPath)
    (hf : file.IsContainedIn dbPath = true)
    (hn : ∀ x ∈ l1, x.IsContainedIn dbPath = false) :
    runSheduledUpdate.pick dbPath (l1 ++ file :: l2) = some (file, l1 ++ l2) := by
  induction l1 with
  | nil => simp [runSheduledUpdate.pick, hf]
  | cons x l1 ih =>
    have hx := hn x (List.mem_cons_self _ _)
    have ih2 := ih (fun y hy => hn y (List.mem_cons_of_mem _ hy))
    simp [runSheduledUpdate.pick, hx, ih2]

theorem runSheduledUpdate_pick_some (dbPath : CPath) :
    ∀ (l : List CPath) (file : CPath) (q : List CPath),
      runSheduledUpdate.pick dbPath l = some (file, q) →
      file.IsContainedIn dbPath = true ∧ ∃ l1 l2, l = l1 ++ file :: l2 ∧ q = l1 ++ l2
        ∧ ∀ x ∈ l1, x.IsContainedIn dbPath = false := by
  intro l
  induction l with
  | nil => intro file q h; simp [runSheduledUpdate.pick] at h
  | cons x l ih =>
    intro file q h
    by_cases hx : x.IsContainedIn dbPath = true
    · simp only [runSheduledUpdate.pick, hx, if_true, Option.some.injEq, Prod.mk.injEq] at h
      obtain ⟨h1, h2⟩ := h
      subst h1 h2
      exact ⟨hx, [], l, rfl, rfl, by simp⟩
    · have hx' : x.IsContainedIn dbPath = false := by simpa using hx
      simp only [runSheduledUpdate.pick, hx', Bool.false_eq_true, if_false] at h
      cases hp : runSheduledUpdate.pick dbPath l with
      | none => simp [hp] at h
      | some r =>
        obtain ⟨g, l'⟩ := r
        simp only [hp, Option.some.injEq, Prod.mk.injEq] at h
        obtain ⟨h1, h2⟩ := h
        subst h1 h2
        obtain ⟨hc, l1, l2, hl, hq, hn⟩ := ih g l' hp
        refine ⟨hc, x :: l1, l2, by simp [hl], by simp [hq], ?_⟩
        intro y hy
        rcases List.mem_cons.1 hy with hy | hy
        · rw [hy]; exact hx'
        · exact hn y hy

theorem runSheduledUpdate_succ (env : Env) (dbPath : CPath) (fuel : Nat) (s : Plugin)
    (file : CPath) (l : List CPath)
    (hp : runSheduledUpdate.pick dbPath s.UpdateList = some (file, l)) :
    runSheduledUpdate env dbPath (fuel + 1) s
      = if (UpdateSingleFile env { s with UpdateList := l } (some file)).1 then
          some (true, (UpdateSingleFile env { s with UpdateList := l } (some file)).2.1,
            [(file, true, (UpdateSingleFile env { s with UpdateList := l } (some file)).2.2)])
        else
          (runSheduledUpdate env dbPath fuel
              (UpdateSingleFile env { s with UpdateList := l } (some file)).2.1).map
            (fun r => (r.1, r.2.1,
              (file, false,
                (UpdateSingleFile env { s with UpdateList := l } (some file)).2.2) :: r.2.2)) := by
  have hne : s.UpdateList.isEmpty = false := by
    cases hl : s.UpdateList with
    | nil => rw [hl] at hp; simp [runSheduledUpdate.pick] at hp
    | cons x t => rfl
  rw [runSheduledUpdate]
  simp only [hne, Bool.false_eq_true, if_false, hp]
  cases hu : (UpdateSingleFile env { s with UpdateList := l } (some file)).1
  · simp only [Bool.not_false, if_true, Bool.false_eq_true, if_false]
    cases runSheduledUpdate env dbPath fuel
        (UpdateSingleFile env { s with UpdateList := l } (some file)).2.1 with
    | none => rfl
    | some r => obtain ⟨a, b, c⟩ := r; rfl
  · simp

theorem runSheduledUpdate_nothing (env : Env) (dbPath : CPath) (fuel : Nat) (s : Plugin)
    (h : ∀ x ∈ s.UpdateList, x.IsContainedIn dbPath = false) :
    runSheduledUpdate env dbPath (fuel + 1) s = some (false, s, []) := by
  rw [runSheduledUpdate, runSheduledUpdate_pick_none dbPath _ h]
  split_ifs <;> rfl

theorem runSheduledUpdate_total (env : Env) (dbPath : CPath) :
    ∀ (fuel : Nat) (s : Plugin), s.UpdateList.length < fuel →
      ∃ r s' log, runSheduledUpdate env dbPath fuel s = some (r, s', log)
        ∧ log.length ≤ s.UpdateList.length
        ∧ (r = true ↔ ∃ e ∈ log, e.2.1 = true)
        ∧ (∀ e ∈ log.dropLast, e.2.1 = false)
        ∧ (s.UpdateList.Nodup → s'.UpdateList.Nodup) := by
  intro fuel
  induction fuel with
  | zero => intro s h; omega
  | succ fuel ih =>
    intro s hlen
    cases hp : runSheduledUpdate.pick dbPath s.UpdateList with
    | none =>
      refine ⟨false, s, [], ?_, by simp, by simp, by simp, fun h => h⟩
      rw [runSheduledUpdate, hp]
      split_ifs <;> rfl
    | some r =>
      obtain ⟨file, l⟩ := r
      obtain ⟨_, l1, l2, hl, hq, _⟩ := runSheduledUpdate_pick_some dbPath _ _ _ hp
      have hlen' : l.length + 1 = s.UpdateList.length := by
        rw [hl, hq]; simp; omega
      have hnd : s.UpdateList.Nodup → l.Nodup := by
        intro h
        rw [hl] at h
        rw [hq]
        exact h.sublist (List.Sublist.append_left (List.sublist_cons_self _ _) _)
      rw [runSheduledUpdate_succ env dbPath fuel s file l hp]
      cases hu : (UpdateSingleFile env { s with UpdateList := l } (some file)).1
      · have hq' := (UpdateSingleFile_false_queue env { s with UpdateList := l }
          (some file) hu).1
        have hq'' : (UpdateSingleFile env { s with UpdateList := l }
            (some file)).2.1.UpdateList = l := hq'
        obtain ⟨r, s', log, hrun, hlog, hr, hdl, hnd'⟩ :=
          ih (UpdateSingleFile env { s with UpdateList := l } (some file)).2.1
            (by rw [hq'']; omega)
        refine ⟨r, s',
          (file, false, (UpdateSingleFile env { s with UpdateList := l } (some file)).2.2)
            :: log, by simp [hrun], ?_, ?_, ?_, ?_⟩
        · rw [hq''] at hlog; simp; omega
        · simp [hr]
        · intro e he
          cases log with
          | nil => simp at he
          | cons x t =>
            rw [List.dropLast_cons₂] at he
            rcases List.mem_cons.1 he with he | he
            · rw [he]
            · exact hdl e he
        · intro h
          apply hnd'
          rw [hq'']
          exact hnd h
      · refine ⟨true, (UpdateSingleFile env { s with UpdateList := l } (some file)).2.1,
          [(file, true, (UpdateSingleFile env { s with UpdateList := l } (some file)).2.2)],
          by simp, by simp; omega, by simp, by simp, ?_⟩
        intro h
        exact UpdateSingleFile_nodup env { s with UpdateList := l } (some file) (hnd h)

theorem runSheduledUpdate_more_fuel (env : Env) (dbPath : CPath) :
    ∀ (fuel : Nat) (s : Plugin) (x : Bool × Plugin × List (CPath × Bool × UpdateOutcome)),
      runSheduledUpdate env dbPath fuel s = some x →
      runSheduledUpdate env dbPath (fuel + 1) s = some x := by
  intro fuel
  induction fuel with
  | zero => intro s x h; simp [runSheduledUpdate] at h
  | succ fuel ih =>
    intro s x h
    cases hp : runSheduledUpdate.pick dbPath s.UpdateList with
    | none =>
      rw [runSheduledUpdate, hp] at h ⊢
      exact h
    | some r =>
      obtain ⟨file, l⟩ := r
      rw [runSheduledUpdate_succ env dbPath _ s file l hp] at h ⊢
      cases hu : (UpdateSingleFile env { s with UpdateList := l } (some file)).1
      · simp only [hu, Bool.false_eq_true, if_false] at h ⊢
        cases hr : runSheduledUpdate env dbPath fuel
            (UpdateSingleFile env { s with UpdateList := l } (some file)).2.1 with
        | none => simp [hr] at h
        | some y =>
          rw [hr] at h
          rw [ih _ y hr]
          exact h
      · simpa [hu] using h

theorem runSheduledUpdate_any_fuel (env : Env) (dbPath : CPath) (s : Plugin)
    (x : Bool × Plugin × List (CPath × Bool × UpdateOutcome))
    (h : runSheduledUpdate env dbPath (s.UpdateList.length + 1) s = some x) :
    ∀ fuel, s.UpdateList.length < fuel → runSheduledUpdate env dbPath fuel s = some x := by
  intro fuel hf
  obtain ⟨k, rfl⟩ : ∃ k, fuel = s.UpdateList.length + 1 + k := ⟨fuel - (s.UpdateList.length + 1), by omega⟩
  clear hf
  induction k with
  | zero => exact h
  | succ k ih => exact runSheduledUpdate_more_fuel env dbPath _ s x ih

/-! ## UnregisterDb with two readers -/

/-- C11, as stated, fails: the entry `C:\a\` is held by two readers; the
first calls `UnregisterDb`, which keeps the entry, and the second then
releases its lock with `PutDb`. The entry is still registered, unlocked, and
`DeleteFile` was never called: the unregister asked for by the first reader
is not remembered. -/
theorem DbManager.UnregisterDb_then_PutDb_keeps_entry :
    (DbManager.mk [⟨0, Sample.dirA, .readLocked 1⟩] 1).UnregisterDb
        Sample.allDeletable (some 0)
      = (false, DbManager.mk [⟨0, Sample.dirA, .readLocked 0⟩] 1, [])
    ∧ ((DbManager.mk [⟨0, Sample.dirA, .readLocked 1⟩] 1).UnregisterDb
        Sample.allDeletable (some 0)).2.1.PutDb (some 0)
      = (false, DbManager.mk [⟨0, Sample.dirA, .unlocked⟩] 1) := by
  decide

/-- C11, amended: if `UnregisterDb` is called on an entry held by two
readers, it returns `false`, deletes nothing, and the entry remains
registered, held by one reader. Nothing remembers the call: if the second
reader then releases its lock with `PutDb`, the entry stays registered,
unlocked, and no file is deleted; if it releases it with `UnregisterDb`, the
entry disappears from the registry and `DeleteFile` is called on `GTAGS`,
then `GPATH`, then `GRTAGS` up to the first failure, the result being `true`
exactly when all three deletions succeed. -/
theorem DbManager.UnregisterDb_two_readers (m : DbManager) (disk disk2 : Disk) (a : Nat)
    (e : GTagsDb) (h : m.entryOf a = some e) (h2 : e.lock = .readLocked 1) :
    ∃ l1 l2, m._dbList = l1 ++ e :: l2 ∧ (∀ x ∈ l1, a ≠ x.addr)
      ∧ m.UnregisterDb disk (some a)
        = (false, { m with _dbList := l1 ++ ⟨e.addr, e._path, .readLocked 0⟩ :: l2 }, [])
      ∧ (m.UnregisterDb disk (some a)).2.1.PutDb (some a)
        = (false, { m with _dbList := l1 ++ ⟨e.addr, e._path, .unlocked⟩ :: l2 })
      ∧ (m.UnregisterDb disk (some a)).2.1.UnregisterDb disk2 (some a)
        = ((DbManager.deleteDb disk2 e._path).1, { m with _dbList := l1 ++ l2 },
            e._path.append "GTAGS" ::
              (if disk2.DeleteFile (e._path.append "GTAGS") then
                e._path.append "GPATH" ::
                  (if disk2.DeleteFile (e._path.append "GPATH") then
                    [e._path.append "GRTAGS"] else [])
               else []))
      ∧ ((DbManager.deleteDb disk2 e._path).1 = true
          ↔ disk2.DeleteFile (e._path.append "GTAGS") = true
            ∧ disk2.DeleteFile (e._path.append "GPATH") = true
            ∧ disk2.DeleteFile (e._path.append "GRTAGS") = true) := by
  obtain ⟨ha, l1, l2, hsplit, hn⟩ := DbManager.entryOf_split h
  obtain ⟨addr, path, lock⟩ := e
  simp only at h2 ha
  subst h2
  have hs1 := DbManager.UnregisterDb_scan_split disk a ⟨addr, path, .readLocked 1⟩ l1 l2 ha hn
  have hs2 := DbManager.PutDb_scan_split a ⟨addr, path, .readLocked 0⟩ l1 l2 ha hn
  have hs3 := DbManager.UnregisterDb_scan_split disk2 a ⟨addr, path, .readLocked 0⟩ l1 l2 ha hn
  have h1 : m.UnregisterDb disk (some a)
      = (false, { m with _dbList := l1 ++ ⟨addr, path, .readLocked 0⟩ :: l2 }, []) := by
    simp only [DbManager.UnregisterDb, hsplit, hs1]
    simp [GTagsDb.Unlock, GTagsDb.IsLocked]
  refine ⟨l1, l2, hsplit, hn, h1, ?_, ?_, ?_⟩
  · rw [h1]
    simp only [DbManager.PutDb, hs2]
    simp [GTagsDb.Unlock, GTagsDb.IsLocked]
  · rw [h1]
    simp only [DbManager.UnregisterDb, hs3, DbManager.deleteDb_eq]
    cases h3 : disk2.DeleteFile (CPath.append path "GTAGS") <;>
      cases h4 : disk2.DeleteFile (CPath.append path "GPATH") <;>
        simp [GTagsDb.Unlock, GTagsDb.IsLocked, h3, h4]
  · simp only [DbManager.deleteDb_eq]
    cases h3 : disk2.DeleteFile (CPath.append path "GTAGS") <;>
      cases h4 : disk2.DeleteFile (CPath.append path "GPATH") <;> simp

/-- Witness for C11 (amended): two readers of `C:\a\` on a disk where every
deletion succeeds. -/
theorem DbManager.UnregisterDb_two_readers_witness :
    ∃ l1 l2, Sample.twoReaders._dbList = l1 ++ (⟨0, Sample.dirA, .readLocked 1⟩ : GTagsDb) :: l2
      ∧ (∀ x ∈ l1, 0 ≠ x.addr)
      ∧ Sample.twoReaders.UnregisterDb Sample.allDeletable (some 0)
        = (false, { Sample.twoReaders with _dbList := l1 ++ ⟨0, Sample.dirA, .readLocked 0⟩ :: l2 }, [])
      ∧ (Sample.twoReaders.UnregisterDb Sample.allDeletable (some 0)).2.1.PutDb (some 0)
        = (false, { Sample.twoReaders with _dbList := l1 ++ ⟨0, Sample.dirA, .unlocked⟩ :: l2 })
      ∧ (Sample.twoReaders.UnregisterDb Sample.allDeletable (some 0)).2.1.UnregisterDb
          Sample.allDeletable (some 0)
        = ((DbManager.deleteDb Sample.allDeletable Sample.dirA).1,
            { Sample.twoReaders with _dbList := l1 ++ l2 },
            Sample.dirA.append "GTAGS" ::
              (if Sample.allDeletable.DeleteFile (Sample.dirA.append "GTAGS") then
                Sample.dirA.append "GPATH" ::
                  (if Sample.allDeletable.DeleteFile (Sample.dirA.append "GPATH") then
                    [Sample.dirA.append "GRTAGS"] else [])
               else []))
      ∧ ((DbManager.deleteDb Sample.allDeletable Sample.dirA).1 = true
          ↔ Sample.allDeletable.DeleteFile (Sample.dirA.append "GTAGS") = true
            ∧ Sample.allDeletable.DeleteFile (Sample.dirA.append "GPATH") = true
            ∧ Sample.allDeletable.DeleteFile (Sample.dirA.append "GRTAGS") = true) :=
  DbManager.UnregisterDb_two_readers Sample.twoReaders
    Sample.allDeletable Sample.allDeletable 0 ⟨0, Sample.dirA, .readLocked 1⟩
    (by decide) rfl

/-! ## The update queue -/

theorem Plugin.run_nodup_of_nodup :
    ∀ (calls : List (Env × QueueCall)) (s : Plugin), s.UpdateList.Nodup →
      (Plugin.run calls s).UpdateList.Nodup := by
  intro calls
  induction calls with
  | nil => intro s h; exact h
  | cons c calls ih =>
    intro s h
    obtain ⟨env, call⟩ := c
    apply ih
    cases call with
    | sheduleForUpdate file => exact sheduleForUpdate_nodup s file h
    | runSheduledUpdate dbPath =>
      obtain ⟨r, s', log, hrun, _, _, _, hnd⟩ :=
        runSheduledUpdate_total env dbPath (s.UpdateList.length + 1) s (by omega)
      simp only [Plugin.step, hrun]
      exact hnd h
    | other mgr => exact h

/-- C12: starting from the empty queue, after any sequence of
`sheduleForUpdate` and `runSheduledUpdate` calls (and any other activity on
the registry in between) the queued paths are pairwise distinct;
`sheduleForUpdate` of a path already queued leaves the state exactly as it
was, and of a path not queued appends it at the end, so that enqueuing the
same path twice yields one entry. -/
theorem UpdateList_never_twice (calls : List (Env × QueueCall)) (mgr : DbManager) :
    (Plugin.run calls { mgr := mgr, UpdateList := [] }).UpdateList.Nodup
    ∧ (∀ (s : Plugin) (file : CPath), file ∈ s.UpdateList → sheduleForUpdate s file = s)
    ∧ (∀ (s : Plugin) (file : CPath), file ∉ s.UpdateList →
        sheduleForUpdate s file = { s with UpdateList := s.UpdateList ++ [file] }
        ∧ sheduleForUpdate (sheduleForUpdate s file) file
          = { s with UpdateList := s.UpdateList ++ [file] }) := by
  refine ⟨Plugin.run_nodup_of_nodup calls _ List.nodup_nil, sheduleForUpdate_of_mem, ?_⟩
  intro s file h
  have h1 := sheduleForUpdate_of_not_mem s file h
  refine ⟨h1, ?_⟩
  rw [h1]
  exact sheduleForUpdate_of_mem _ file (by simp)

/-- C13: for every queue and database path, if no queued path is contained
in the database path, `runSheduledUpdate` calls `UpdateSingleFile` on
nothing, leaves the state unchanged and returns `false`; otherwise its first
call of `UpdateSingleFile` is on the earliest-enqueued path contained in the
database path, made after exactly that path was erased from the queue, the
other queued paths keeping their order. -/
theorem runSheduledUpdate_first_attempt (env : Env) (dbPath : CPath) (s : Plugin) :
    ((∀ f ∈ s.UpdateList, f.IsContainedIn dbPath = false) →
        runSheduledUpdate env dbPath (s.UpdateList.length + 1) s = some (false, s, []))
    ∧ (∀ f, s.UpdateList.find? (fun x => x.IsContainedIn dbPath) = some f →
        ∃ l1 l2, s.UpdateList = l1 ++ f :: l2
          ∧ (∀ x ∈ l1, x.IsContainedIn dbPath = false)
          ∧ runSheduledUpdate.pick dbPath s.UpdateList = some (f, l1 ++ l2)
          ∧ ∃ r s' rest,
              runSheduledUpdate env dbPath (s.UpdateList.length + 1) s
                = some (r, s',
                    (f, (UpdateSingleFile env { s with UpdateList := l1 ++ l2 } (some f)).1,
                      (UpdateSingleFile env { s with UpdateList := l1 ++ l2 } (some f)).2.2)
                    :: rest)) := by
  refine ⟨runSheduledUpdate_nothing env dbPath _ s, ?_⟩
  intro f hf
  rw [List.find?_eq_some] at hf
  obtain ⟨hc, l1, l2, hl, hn⟩ := hf
  have hn' : ∀ x ∈ l1, x.IsContainedIn dbPath = false := by
    intro x hx
    simpa using hn x hx
  have hp : runSheduledUpdate.pick dbPath s.UpdateList = some (f, l1 ++ l2) := by
    rw [hl]
    exact runSheduledUpdate_pick_split dbPath f l1 l2 hc hn'
  refine ⟨l1, l2, hl, hn', hp, ?_⟩
  rw [runSheduledUpdate_succ env dbPath _ s f (l1 ++ l2) hp]
  cases hu : (UpdateSingleFile env { s with UpdateList := l1 ++ l2 } (some f)).1
  · have hq := (UpdateSingleFile_false_queue env { s with UpdateList := l1 ++ l2 }
      (some f) hu).1
    have hq' : (UpdateSingleFile env { s with UpdateList := l1 ++ l2 }
        (some f)).2.1.UpdateList = l1 ++ l2 := hq
    obtain ⟨r, s', log, hrun, _⟩ :=
      runSheduledUpdate_total env dbPath s.UpdateList.length
        (UpdateSingleFile env { s with UpdateList := l1 ++ l2 } (some f)).2.1
        (by rw [hq', hl]; simp)
    exact ⟨r, s', log, by simp [hrun]⟩
  · exact ⟨true, (UpdateSingleFile env { s with UpdateList := l1 ++ l2 } (some f)).2.1,
      [], by simp⟩

theorem runSheduledUpdate_false_drained (env : Env) (dbPath : CPath) :
    ∀ (fuel : Nat) (s s' : Plugin) (log : List (CPath × Bool × UpdateOutcome)),
      runSheduledUpdate env dbPath fuel s = some (false, s', log) →
      ∀ f ∈ s'.UpdateList, f.IsContainedIn dbPath = false := by
  intro fuel
  induction fuel with
  | zero => intro s s' log h; simp [runSheduledUpdate] at h
  | succ fuel ih =>
    intro s s' log h
    cases hp : runSheduledUpdate.pick dbPath s.UpdateList with
    | none =>
      have hall : ∀ x ∈ s.UpdateList, x.IsContainedIn dbPath = false := by
        intro x hx
        by_contra hc
        have hc' : x.IsContainedIn dbPath = true := by simpa using hc
        have hfind : (s.UpdateList.find? (fun y => y.IsContainedIn dbPath)).isSome = true := by
          rw [List.find?_isSome]
          exact ⟨x, hx, hc'⟩
        cases hf : s.UpdateList.find? (fun y => y.IsContainedIn dbPath) with
        | none => rw [hf] at hfind; simp at hfind
        | some g =>
          rw [List.find?_eq_some] at hf
          obtain ⟨hg, k1, k2, hk, hn⟩ := hf
          have := runSheduledUpdate_pick_split dbPath g k1 k2 hg
            (fun y hy => by simpa using hn y hy)
          rw [← hk, hp] at this
          simp at this
      rw [runSheduledUpdate_nothing env dbPath fuel s hall] at h
      simp only [Option.some.injEq, Prod.mk.injEq, true_and] at h
      rw [← h.1]
      exact hall
    | some r =>
      obtain ⟨file, l⟩ := r
      rw [runSheduledUpdate_succ env dbPath fuel s file l hp] at h
      cases hu : (UpdateSingleFile env { s with UpdateList := l } (some file)).1
      · simp only [hu, Bool.false_eq_true, if_false] at h
        cases hr : runSheduledUpdate env dbPath fuel
            (UpdateSingleFile env { s with UpdateList := l } (some file)).2.1 with
        | none => simp [hr] at h
        | some y =>
          obtain ⟨b, t, lg⟩ := y
          rw [hr] at h
          simp only [Option.map_some', Option.some.injEq, Prod.mk.injEq] at h
          obtain ⟨hb, ht, _⟩ := h
          subst hb ht
          exact ih _ _ _ hr
      · simp [hu] at h

/-- C14, as stated, fails: the queue holds `C:\a\b\f.c`, which is contained
in `C:\a\`, but no `GTAGS` exists any more and nothing is registered. The one
update attempt finds no database, `UpdateSingleFile` returns `false`, the
recursive call finds the queue empty, and `runSheduledUpdate` returns `false`
although the queue held a relevant path. -/
theorem runSheduledUpdate_false_after_attempt :
    runSheduledUpdate Sample.envBare Sample.dirA 2
        { mgr := DbManager.empty, UpdateList := [Sample.fileB] }
      = some (false, { mgr := DbManager.empty, UpdateList := [] },
          [(Sample.fileB, false, UpdateOutcome.notFound)])
    ∧ Sample.fileB.IsContainedIn Sample.dirA = true := by
  decide

/-- C14, amended: for every queue, database path and outcome of the update
attempts: if no queued path is contained in the database path,
`runSheduledUpdate` returns `false` with the state unchanged and no call of
`UpdateSingleFile`. Otherwise it calls `UpdateSingleFile` on the earliest
contained path, erased from the queue: if that call returns `true` it returns
`true` at once, and if it returns `false` its result is that of draining the
state the call left. So it returns `true` if and only if one of the
`UpdateSingleFile` calls it made returned `true` (the last one, every earlier
one having returned `false`), which requires a queued path contained in the
database path; it returns `false` when the queue held nothing relevant and
also when every attempted update returned `false`, and then no path contained
in the database path is left in the queue. -/
theorem runSheduledUpdate_result (env : Env) (dbPath : CPath) (s : Plugin) :
    ∃ r s' log,
      runSheduledUpdate env dbPath (s.UpdateList.length + 1) s = some (r, s', log)
      ∧ ((∀ f ∈ s.UpdateList, f.IsContainedIn dbPath = false) →
          r = false ∧ s' = s ∧ log = [])
      ∧ (∀ file l, runSheduledUpdate.pick dbPath s.UpdateList = some (file, l) →
          ∃ rest,
            log = (file, (UpdateSingleFile env { s with UpdateList := l } (some file)).1,
                    (UpdateSingleFile env { s with UpdateList := l } (some file)).2.2) :: rest
            ∧ ((UpdateSingleFile env { s with UpdateList := l } (some file)).1 = true →
                r = true ∧ rest = []
                ∧ s' = (UpdateSingleFile env { s with UpdateList := l } (some file)).2.1)
            ∧ ((UpdateSingleFile env { s with UpdateList := l } (some file)).1 = false →
                runSheduledUpdate env dbPath s.UpdateList.length
                    (UpdateSingleFile env { s with UpdateList := l } (some file)).2.1
                  = some (r, s', rest)))
      ∧ (r = true ↔ ∃ e ∈ log, e.2.1 = true)
      ∧ (∀ e ∈ log.dropLast, e.2.1 = false)
      ∧ (r = true → ∃ f ∈ s.UpdateList, f.IsContainedIn dbPath = true)
      ∧ (r = false → ∀ f ∈ s'.UpdateList, f.IsContainedIn dbPath = false) := by
  obtain ⟨r, s', log, hrun, _, hr, hdl, _⟩ :=
    runSheduledUpdate_total env dbPath (s.UpdateList.length + 1) s (by omega)
  have hnone : (∀ f ∈ s.UpdateList, f.IsContainedIn dbPath = false) →
      r = false ∧ s' = s ∧ log = [] := by
    intro h
    have h2 := runSheduledUpdate_nothing env dbPath s.UpdateList.length s h
    rw [hrun] at h2
    simp only [Option.some.injEq, Prod.mk.injEq] at h2
    exact h2
  refine ⟨r, s', log, hrun, hnone, ?_, hr, hdl, ?_, ?_⟩
  · intro file l hp
    have hstep := runSheduledUpdate_succ env dbPath s.UpdateList.length s file l hp
    rw [hrun] at hstep
    cases hu : (UpdateSingleFile env { s with UpdateList := l } (some file)).1
    · rw [hu] at hstep
      simp only [Bool.false_eq_true, if_false] at hstep
      cases hrec : runSheduledUpdate env dbPath s.UpdateList.length
          (UpdateSingleFile env { s with UpdateList := l } (some file)).2.1 with
      | none => rw [hrec] at hstep; simp at hstep
      | some y =>
        obtain ⟨b, t, lg⟩ := y
        rw [hrec] at hstep
        simp only [Option.map_some', Option.some.injEq, Prod.mk.injEq] at hstep
        obtain ⟨hb, ht, hlg⟩ := hstep
        subst hb ht hlg
        exact ⟨lg, rfl, by simp, fun _ => rfl⟩
    · rw [hu] at hstep
      simp only [if_true, Option.some.injEq, Prod.mk.injEq] at hstep
      obtain ⟨hb, ht, hlg⟩ := hstep
      subst hb ht hlg
      exact ⟨[], rfl, fun _ => ⟨rfl, rfl, rfl⟩, by simp⟩
  · intro hrt
    by_contra hcon
    have hall : ∀ f ∈ s.UpdateList, f.IsContainedIn dbPath = false := by
      intro f hf
      by_contra hc
      exact hcon ⟨f, hf, by simpa using hc⟩
    rw [(hnone hall).1] at hrt
    exact Bool.false_ne_true hrt
  · intro hrf
    subst hrf
    exact runSheduledUpdate_false_drained env dbPath _ s s' log hrun

/-- C15, as stated, fails: `C:\a\` is write-locked by a running command and
the queue holds `C:\a\b\f.c` and `C:\a\g.c`. The update of the first reports
"still locked"; `UpdateSingleFile` puts it back at the end of the queue and
returns `true`, and `runSheduledUpdate` returns `true` at once: the update of
`C:\a\g.c` is not attempted. -/
theorem runSheduledUpdate_stops_when_locked :
    runSheduledUpdate (Sample.envAtA true) Sample.dirA 3
        (Sample.busyA [Sample.fileB, Sample.fileG])
      = some (true, Sample.busyA [Sample.fileG, Sample.fileB],
          [(Sample.fileB, true, UpdateOutcome.stillLocked)])
    ∧ Sample.fileG.IsContainedIn Sample.dirA = true := by
  decide

/-- C15, amended: if the update attempted for the drained path reports
"still locked" (`GetDb` returns a handle without success), `UpdateSingleFile`
puts the path back on the queue and `runSheduledUpdate` returns `true`
without attempting any other queued path. It goes on to the next queued path
contained in the database path only when `UpdateSingleFile` returned
`false`, that is when no database was found for the path or the update
command could not be started. -/
theorem runSheduledUpdate_still_locked (env : Env) (dbPath : CPath) (s : Plugin)
    (fuel : Nat) (f : CPath) (l : List CPath)
    (hp : runSheduledUpdate.pick dbPath s.UpdateList = some (f, l)) :
    ((s.mgr.GetDb env.disk f true (some false)).1 ≠ none →
      (s.mgr.GetDb env.disk f true (some false)).2.1 ≠ some true →
        runSheduledUpdate env dbPath (fuel + 1) s
          = some (true,
              sheduleForUpdate
                { mgr := (s.mgr.GetDb env.disk f true (some false)).2.2, UpdateList := l } f,
              [(f, true, UpdateOutcome.stillLocked)]))
    ∧ ((UpdateSingleFile env { s with UpdateList := l } (some f)).1 = false →
        ((UpdateSingleFile env { s with UpdateList := l } (some f)).2.2 = .notFound
          ∨ (UpdateSingleFile env { s with UpdateList := l } (some f)).2.2 = .notStarted)
        ∧ runSheduledUpdate env dbPath (fuel + 1) s
          = (runSheduledUpdate env dbPath fuel
              (UpdateSingleFile env { s with UpdateList := l } (some f)).2.1).map
            (fun r => (r.1, r.2.1,
              (f, false,
                (UpdateSingleFile env { s with UpdateList := l } (some f)).2.2) :: r.2.2))) := by
  constructor
  · intro h1 h2
    have hus : UpdateSingleFile env { s with UpdateList := l } (some f)
        = (true,
            sheduleForUpdate
              { mgr := (s.mgr.GetDb env.disk f true (some false)).2.2, UpdateList := l } f,
            UpdateOutcome.stillLocked) := by
      rw [UpdateSingleFile_eq]
      simp only [Option.getD_some]
      cases hg : (s.mgr.GetDb env.disk f true (some false)).1 with
      | none => exact absurd hg h1
      | some a => simp [h2]
    rw [runSheduledUpdate_succ env dbPath fuel s f l hp, hus]
    simp
  · intro hu
    refine ⟨(UpdateSingleFile_false_queue env { s with UpdateList := l } (some f) hu).2, ?_⟩
    rw [runSheduledUpdate_succ env dbPath fuel s f l hp, hu]
    simp

/-- Witness for C15 (amended): `C:\a\` is write-locked, the queue holds
`C:\a\b\f.c` and `C:\a\g.c`: the first is put back, the second is not
attempted. -/
theorem runSheduledUpdate_still_locked_witness :
    runSheduledUpdate (Sample.envAtA true) Sample.dirA (2 + 1)
        (Sample.busyA [Sample.fileB, Sample.fileG])
      = some (true,
          sheduleForUpdate
            { mgr := ((Sample.busyA [Sample.fileB, Sample.fileG]).mgr.GetDb
                (Sample.envAtA true).disk Sample.fileB true (some false)).2.2,
              UpdateList := [Sample.fileG] } Sample.fileB,
          [(Sample.fileB, true, UpdateOutcome.stillLocked)]) :=
  (runSheduledUpdate_still_locked (Sample.envAtA true) Sample.dirA
    (Sample.busyA [Sample.fileB, Sample.fileG]) 2 Sample.fileB [Sample.fileG]
    (by decide)).1 (by decide) (by decide)

/-- C17: `runSheduledUpdate` returns for every queue, database path,
registry and environment: a recursion depth of the queue's length plus one is
never used up, and any larger bound gives the same result. It makes at most
as many update attempts as the queue is long; every attempt but the last
returned `false`; and each recursive call is made after one path was erased
from the queue and `UpdateSingleFile` returned `false` without enqueuing
anything, on a queue one shorter. -/
theorem runSheduledUpdate_terminates (env : Env) (dbPath : CPath) (s : Plugin) :
    ∃ r s' log,
      runSheduledUpdate env dbPath (s.UpdateList.length + 1) s = some (r, s', log)
      ∧ (∀ fuel, s.UpdateList.length < fuel →
          runSheduledUpdate env dbPath fuel s = some (r, s', log))
      ∧ log.length ≤ s.UpdateList.length
      ∧ (∀ e ∈ log.dropLast, e.2.1 = false)
      ∧ (∀ file l, runSheduledUpdate.pick dbPath s.UpdateList = some (file, l) →
          l.length + 1 = s.UpdateList.length
          ∧ ((UpdateSingleFile env { s with UpdateList := l } (some file)).1 = true →
              log = [(file, true,
                (UpdateSingleFile env { s with UpdateList := l } (some file)).2.2)])
          ∧ ((UpdateSingleFile env { s with UpdateList := l } (some file)).1 = false →
              (UpdateSingleFile env { s with UpdateList := l } (some file)).2.1.UpdateList = l
              ∧ runSheduledUpdate env dbPath (s.UpdateList.length + 1) s
                = (runSheduledUpdate env dbPath s.UpdateList.length
                    (UpdateSingleFile env { s with UpdateList := l } (some file)).2.1).map
                  (fun x => (x.1, x.2.1,
                    (file, false,
                      (UpdateSingleFile env { s with UpdateList := l } (some file)).2.2)
                      :: x.2.2)))) := by
  obtain ⟨r, s', log, hrun, hlen, _, hdl, _⟩ :=
    runSheduledUpdate_total env dbPath (s.UpdateList.length + 1) s (by omega)
  refine ⟨r, s', log, hrun, runSheduledUpdate_any_fuel env dbPath s _ hrun, hlen, hdl, ?_⟩
  intro file l hp
  obtain ⟨_, l1, l2, hl, hq, _⟩ := runSheduledUpdate_pick_some dbPath _ _ _ hp
  have hstep := runSheduledUpdate_succ env dbPath s.UpdateList.length s file l hp
  refine ⟨by rw [hl, hq]; simp; omega, ?_, ?_⟩
  · intro hu
    rw [hstep, hu] at hrun
    simp only [if_true, Option.some.injEq, Prod.mk.injEq] at hrun
    exact hrun.2.2.symm
  · intro hu
    refine ⟨(UpdateSingleFile_false_queue env { s with UpdateList := l }
      (some file) hu).1, ?_⟩
    rw [hstep, hu]
    simp

/-! ## CreateDatabase -/

/-- C16: the claim that `CreateDatabase` leaves a busy handle alone fails on
the code. `C:\a\` is write-locked by a running command and the active
document is `C:\a\b\f.c`: `GetDb` returns the handle with `success = false`.
`CreateDatabase` never looks at `success`: if the user answers "No" it calls
`PutDB` on the handle, which unlocks the entry the other command holds, and
if the user answers "Yes" it starts the create command on the handle.
`getDatabase`, in the same state, returns `NULL`. -/
theorem CreateDatabase_acts_on_busy_handle :
    (Sample.busyA []).mgr.GetDb Sample.markerAtA Sample.fileB true (some false)
      = (some 0, some false, (Sample.busyA []).mgr)
    ∧ CreateDatabase (Sample.envAtA false) (Sample.busyA [])
      = ({ mgr := DbManager.mk [⟨0, Sample.dirA, .unlocked⟩] 1, UpdateList := [] },
          [Action.PutDB (some 0)])
    ∧ CreateDatabase (Sample.envAtA true) (Sample.busyA [])
      = (Sample.busyA [], [Action.CmdRun ⟨CmdId.CREATE_DATABASE, some 0, none⟩])
    ∧ getDatabase (Sample.envAtA false) (Sample.busyA []) true
      = (none, Sample.busyA []) := by
  decide

/-! ## The library list of the configuration window -/

theorem ConfigWin.tcsstr_fixed (buf sub : List Char) (ptr : Nat) (c : Char)
    (hm : sub.isPrefixOf (buf.drop ptr) = true)
    (hc : buf.get? (ptr + sub.length) = some c) :
    ConfigWin.tcsstr buf ptr sub = some ptr := by
  unfold ConfigWin.tcsstr
  cases hd : buf.drop ptr with
  | nil =>
    have hlen : buf.length ≤ ptr := by
      have := congrArg List.length hd
      simp at this
      omega
    have : buf.get? (ptr + sub.length) = none := by
      rw [List.get?_eq_none]; omega
    rw [this] at hc
    exact absurd hc (by simp)
  | cons x t =>
    rw [hd] at hm
    simp [ConfigWin.tcsstrFrom, hm]

theorem ConfigWin.findLibrary_spins (buf libraryPath : List Char) (ptr : Nat) (c : Char)
    (hm : libraryPath.isPrefixOf (buf.drop ptr) = true)
    (hc : buf.get? (ptr + libraryPath.length) = some c) (hsemi : c ≠ ';') :
    ∀ fuel, ConfigWin.findLibrary buf libraryPath fuel (some ptr) = none := by
  intro fuel
  induction fuel with
  | zero => rfl
  | succ fuel ih =>
    rw [ConfigWin.findLibrary, hc]
    simp only [hsemi, if_false]
    rw [ConfigWin.tcsstr_fixed buf libraryPath ptr c hm hc]
    exact ih

/-- C18: the claim that the search loop of the "Add Library DB" handler
always terminates fails on the code. With the library list `C:/a/b/` and the
new library path `C:/a/`, the path occurs at the start of the text followed
by `b`; the loop then calls `_tcsstr(ptr, ...)` from the same `ptr`, finds the
same occurrence again, and never leaves: whatever the bound on the number of
iterations, the loop has not exited. -/
theorem ConfigWin.searchLibrary_never_exits :
    ∀ fuel, ConfigWin.searchLibrary fuel "C:/a/b/".toList "C:/a/".toList = none := by
  intro fuel
  have h0 : ConfigWin.tcsstr "C:/a/b/".toList 0 "C:/a/".toList = some 0 := by decide
  rw [ConfigWin.searchLibrary, h0]
  exact ConfigWin.findLibrary_spins "C:/a/b/".toList "C:/a/".toList 0 'b'
    (by decide) (by decide) (by decide) fuel

end GTags
